import Mathlib

/-!
A shallow embedding of the SObject signal/slot library (`sobject.h`).

Objects are identified by their address, modelled as a natural number.
Each `SObject` owns a registry `m_signalToSlotMap` mapping a signal
identity to the ordered list of slot bindings subscribed to it, and a
back-reference list `m_slotToSignalObjectList` of the emitters it is
connected to as a receiver.  The C++ `std::map` is keyed by pointer but
every lookup in the source is a linear `find_if` with value comparison
(`compareByPointer`), so the registry is modelled as an association
list; nothing observable depends on the pointer ordering of the map
(the only place iteration order could show, `getAllReceivers`, sorts
and deduplicates its output).

Member-function pointers (signal and slot discriminators, together
with their static types, which the C++ `dynamic_cast` comparison
distinguishes) are modelled as natural numbers.  Emission arguments
(`std::vector<std::any>`) are modelled as lists of pure values.
-/

namespace SObj

/-- An object address. -/
abbrev ObjId := Nat

/-- A declared signal method (member-function-pointer value plus its static type). -/
abbrev SigId := Nat

/-- A declared slot method (member-function-pointer value plus its static type). -/
abbrev SlotId := Nat

/-- An argument value carried inside a `std::any` during emission. -/
inductive SVal where
  | int : Int → SVal
  | str : String → SVal
deriving DecidableEq

/-- A signal identity, modelling `_sobject::_Signal`: the emitter address and
the declared signal method. -/
structure SignalKey where
  emitter : ObjId
  sig : SigId
deriving DecidableEq

/-- A slot binding, modelling `_sobject::_Slot`: the receiver address, the slot
method, and the mutable `m_inputParams` buffer of `_SlotBase`. -/
structure SlotBinding where
  receiver : ObjId
  slot : SlotId
  inputParams : List SVal
deriving DecidableEq

/-- `_Signal::compareByPointer`: equal emitter and equal signal method (a
`dynamic_cast` type mismatch is a `SigId` mismatch in the model). -/
def compareByPointerSig (a b : SignalKey) : Bool :=
  a.emitter == b.emitter && a.sig == b.sig

/-- `_Slot::compareByPointer`: equal receiver and equal slot method
(`m_inputParams` does not take part in the comparison). -/
def compareByPointerSlot (a b : SlotBinding) : Bool :=
  a.receiver == b.receiver && a.slot == b.slot

/-- `_Slot::compareByReceiver`: receiver address comparison. -/
def compareByReceiver (a : SlotBinding) (r : ObjId) : Bool :=
  a.receiver == r

/-- The registry type of `m_signalToSlotMap`. -/
abbrev Registry := List (SignalKey × List SlotBinding)

/-- The per-object state of an `SObject`. -/
structure SObjState where
  signalToSlotMap : Registry
  slotToSignalObjectList : List ObjId
deriving DecidableEq

/-- A default-constructed `SObject`: empty registry, empty back-reference list. -/
def emptySObj : SObjState := ⟨[], []⟩

/-- The heap: every address carries an object state; a never-touched address
holds a default-constructed object. -/
abbrev World := ObjId → SObjState

/-- The initial heap. -/
def emptyWorld : World := fun _ => emptySObj

/-- In-place mutation of the object at address `i`. -/
def setObj (w : World) (i : ObjId) (s : SObjState) : World :=
  fun j => if j = i then s else w j

/-- The registry search of `connect`: find the entry whose key compares equal
to `k`, append the binding to its list, or create a fresh entry when absent
(`emitter->m_signalToSlotMap[signal] = std::list{slot}`). -/
def insertBindingList (m : Registry) (k : SignalKey) (b : SlotBinding) : Registry :=
  match m with
  | [] => [(k, [b])]
  | (k', l) :: rest =>
      if compareByPointerSig k' k then (k', l ++ [b]) :: rest
      else (k', l) :: insertBindingList rest k b

/-- The receiver-side bookkeeping of `connect`: `std::find` then `push_back`
on `m_slotToSignalObjectList`. -/
def addBackRef (l : List ObjId) (e : ObjId) : List ObjId :=
  if l.contains e then l else l ++ [e]

/-- `connect(emitter, signalM, receiver, slotM)` (sobject.h lines 571-611). -/
def connect (w : World) (e : ObjId) (s : SigId) (r : ObjId) (sl : SlotId) : World :=
  let w1 := setObj w e
    { w e with signalToSlotMap := insertBindingList (w e).signalToSlotMap ⟨e, s⟩ ⟨r, sl, []⟩ }
  setObj w1 r
    { w1 r with slotToSignalObjectList := addBackRef (w1 r).slotToSignalObjectList e }

/-- The registry search of `signalIsPresent`: some entry key compares equal to `k`. -/
def signalPresentIn (m : Registry) (k : SignalKey) : Bool :=
  m.any (fun p => compareByPointerSig p.1 k)

/-- `SObject::signalIsPresent`: `find_if` over the registry with
`CustomSignalCompare`. -/
def signalIsPresent (st : SObjState) (k : SignalKey) : Bool :=
  signalPresentIn st.signalToSlotMap k

/-- The registry search of `connectedWithObject`: some entry holds a slot
binding whose receiver is `r`. -/
def anyBindingTo (m : Registry) (r : ObjId) : Bool :=
  m.any (fun p => p.2.any (fun b => compareByReceiver b r))

/-- `SObject::connectedWithObject`: some registry entry holds a slot of
`receiver` (`CustomSlotCompare(receiver, false)`). -/
def connectedWithObject (st : SObjState) (r : ObjId) : Bool :=
  anyBindingTo st.signalToSlotMap r

/-- `SObject::removeSignalSlotConnection` / `removeSignalReceiverSlotConnection`,
parametrised by the slot predicate: find the first entry whose key compares
equal to `k`, `remove_if` the slots matching `pred`, and erase the entry when
its list becomes empty. -/
def removeFromEntry (m : Registry) (k : SignalKey) (pred : SlotBinding → Bool) : Registry :=
  match m with
  | [] => []
  | (k', l) :: rest =>
      if compareByPointerSig k' k then
        let l' := l.filter (fun b => !(pred b))
        if l'.isEmpty then rest else (k', l') :: rest
      else (k', l) :: removeFromEntry rest k pred

/-- `SObject::removeAllSignalSlotConnection`: erase the first entry whose key
compares equal to `k` together with every binding it owns. -/
def removeEntry (m : Registry) (k : SignalKey) : Registry :=
  match m with
  | [] => []
  | (k', l) :: rest =>
      if compareByPointerSig k' k then rest else (k', l) :: removeEntry rest k

/-- The `signal != nullptr and not compareByPointer` filter of
`getAllReceivers`: with no probe every entry matches, with a probe only the
value-equal key does. -/
def sigFilterMatches (k : SignalKey) : Option SignalKey → Bool
  | none => true
  | some probe => compareByPointerSig k probe

/-- The entry walk of `getAllReceivers` before sorting: for every entry
(restricted to the probed signal when one is given) push every slot's
receiver, in registry order. -/
def collectReceivers (m : Registry) (sig : Option SignalKey) : List ObjId :=
  match m with
  | [] => []
  | p :: rest =>
      if sigFilterMatches p.1 sig then
        p.2.map (fun b => b.receiver) ++ collectReceivers rest sig
      else collectReceivers rest sig

/-- Insertion into a list sorted by address (models the `std::list::sort` by
`uintptr_t` in `getAllReceivers`). -/
def insertSorted (x : ObjId) : List ObjId → List ObjId
  | [] => [x]
  | y :: ys => if x ≤ y then x :: y :: ys else y :: insertSorted x ys

/-- Sorting by address in `getAllReceivers`. -/
def sortIds (l : List ObjId) : List ObjId := l.foldr insertSorted []

/-- `std::unique` on the sorted receiver list: drop adjacent duplicates. -/
def uniqueAdj : List ObjId → List ObjId
  | [] => []
  | [x] => [x]
  | x :: y :: ys => if x = y then uniqueAdj (y :: ys) else x :: uniqueAdj (y :: ys)

/-- `SObject::getAllReceivers(signal = nullptr)`: collect, sort by address,
deduplicate. -/
def getAllReceivers (st : SObjState) (sig : Option SignalKey) : List ObjId :=
  uniqueAdj (sortIds (collectReceivers st.signalToSlotMap sig))

/-- The shared tail of the two narrow `disconnect` overloads (sobject.h lines
631-641 and 653-663): store the purged registry `m1` back into the emitter,
then, when the emitter no longer has any binding to `receiver`, remove the
emitter from the receiver's back-reference list. -/
def disconnectCore (w : World) (e : ObjId) (m1 : Registry) (r : ObjId) : World :=
  let w1 := setObj w e { w e with signalToSlotMap := m1 }
  if connectedWithObject (w1 e) r then w1
  else setObj w1 r
    { w1 r with slotToSignalObjectList := (w1 r).slotToSignalObjectList.filter (fun x => x != e) }

/-- `disconnect(emitter, signalM, receiver, slotM)` (sobject.h lines 621-642). -/
def disconnect4 (w : World) (e : ObjId) (s : SigId) (r : ObjId) (sl : SlotId) : World :=
  if signalIsPresent (w e) ⟨e, s⟩ then
    disconnectCore w e
      (removeFromEntry (w e).signalToSlotMap ⟨e, s⟩ (fun b => compareByPointerSlot b ⟨r, sl, []⟩)) r
  else w

/-- `disconnect(emitter, signalM, receiver)` (sobject.h lines 644-664). -/
def disconnect3 (w : World) (e : ObjId) (s : SigId) (r : ObjId) : World :=
  if signalIsPresent (w e) ⟨e, s⟩ then
    disconnectCore w e
      (removeFromEntry (w e).signalToSlotMap ⟨e, s⟩ (fun b => compareByReceiver b r)) r
  else w

/-- The receiver loop shared by `disconnect(emitter, signalM)` and the
back-reference removal of `disconnect(emitter)`: remove `e` from the
back-reference list of every receiver in `rs`, in the checked variant only
when the emitter no longer has any binding to it. -/
def removeBackRefLoopChecked (e : ObjId) (rs : List ObjId) (w : World) : World :=
  rs.foldl (fun acc r =>
    if connectedWithObject (acc e) r then acc
    else setObj acc r
      { acc r with slotToSignalObjectList := (acc r).slotToSignalObjectList.filter (fun x => x != e) }) w

/-- The unchecked receiver loop of `disconnect(emitter)`. -/
def removeBackRefLoop (e : ObjId) (rs : List ObjId) (w : World) : World :=
  rs.foldl (fun acc r =>
    setObj acc r
      { acc r with slotToSignalObjectList := (acc r).slotToSignalObjectList.filter (fun x => x != e) }) w

/-- `disconnect(emitter, signalM)` (sobject.h lines 666-691). -/
def disconnect2 (w : World) (e : ObjId) (s : SigId) : World :=
  if signalIsPresent (w e) ⟨e, s⟩ then
    let receiverList := getAllReceivers (w e) (some ⟨e, s⟩)
    let m1 := removeEntry (w e).signalToSlotMap ⟨e, s⟩
    let w1 := setObj w e { w e with signalToSlotMap := m1 }
    removeBackRefLoopChecked e receiverList w1
  else w

/-- `disconnect(emitter)` (sobject.h lines 693-707): clear the whole registry,
then remove `emitter` from the back-reference list of every receiver that was
subscribed to any of its signals. -/
def disconnect1 (w : World) (e : ObjId) : World :=
  let receiverList := getAllReceivers (w e) none
  let w1 := setObj w e { w e with signalToSlotMap := [] }
  removeBackRefLoop e receiverList w1

/-- The per-emitter purge of the destructor body: in every registry entry drop
the slots whose receiver is the dying object, erasing entries whose list
becomes empty (the `listToremove` pass). -/
def removeReceiverEverywhere (m : Registry) (x : ObjId) : Registry :=
  match m with
  | [] => []
  | (k, l) :: rest =>
      let l' := l.filter (fun b => !(compareByReceiver b x))
      if l'.isEmpty then removeReceiverEverywhere rest x
      else (k, l') :: removeReceiverEverywhere rest x

/-- The emitter walk of the destructor body: for every object in the dying
object's back-reference list, purge the slots bound to it. -/
def purgeLoop (x : ObjId) (os : List ObjId) (w : World) : World :=
  os.foldl (fun acc so =>
    setObj acc so
      { acc so with signalToSlotMap := removeReceiverEverywhere (acc so).signalToSlotMap x }) w

/-- `SObject::~SObject` (sobject.h lines 299-334): `disconnect(this)`, then for
every emitter in the back-reference list purge the slots bound to `this`, then
clear the back-reference list. -/
def destructor (w : World) (x : ObjId) : World :=
  let w1 := disconnect1 w x
  let w2 := purgeLoop x (w1 x).slotToSignalObjectList w1
  setObj w2 x { w2 x with slotToSignalObjectList := [] }

/-- The per-slot update of `emitSignal`: store a copy of the emitted arguments
in `m_inputParams` of every slot of the matched entry (`setInputParams`). -/
def setParamsInEntry (m : Registry) (k : SignalKey) (args : List SVal) : Registry :=
  match m with
  | [] => []
  | (k', l) :: rest =>
      if compareByPointerSig k' k then
        (k', l.map (fun b => { b with inputParams := args })) :: rest
      else (k', l) :: setParamsInEntry rest k args

/-- One slot invocation: the receiver, the invoked slot method, and the
argument values it was called with. -/
abbrev Invocation := ObjId × SlotId × List SVal

/-- `SObject::emitSignal` (sobject.h lines 343-368): look the signal up by
value; when absent do nothing; otherwise, for each slot of the entry in list
order, store the arguments (`setInputParams`) and invoke it (`exec`).  Returns
the updated heap together with the trace of slot invocations. -/
def emitSignal (w : World) (e : ObjId) (s : SigId) (args : List SVal) :
    World × List Invocation :=
  match (w e).signalToSlotMap.find? (fun p => compareByPointerSig p.1 ⟨e, s⟩) with
  | none => (w, [])
  | some p =>
      (setObj w e
        { w e with signalToSlotMap := setParamsInEntry (w e).signalToSlotMap ⟨e, s⟩ args },
       p.2.map (fun b => (b.receiver, b.slot, args)))

/-- The operations of the public protocol. -/
inductive Op where
  | connectOp (e : ObjId) (s : SigId) (r : ObjId) (sl : SlotId)
  | disconnect4Op (e : ObjId) (s : SigId) (r : ObjId) (sl : SlotId)
  | disconnect3Op (e : ObjId) (s : SigId) (r : ObjId)
  | disconnect2Op (e : ObjId) (s : SigId)
  | disconnect1Op (e : ObjId)
  | emitOp (e : ObjId) (s : SigId) (args : List SVal)
  | destroyOp (x : ObjId)

/-- State effect of one operation. -/
def applyOp (w : World) : Op → World
  | .connectOp e s r sl => connect w e s r sl
  | .disconnect4Op e s r sl => disconnect4 w e s r sl
  | .disconnect3Op e s r => disconnect3 w e s r
  | .disconnect2Op e s => disconnect2 w e s
  | .disconnect1Op e => disconnect1 w e
  | .emitOp e s args => (emitSignal w e s args).1
  | .destroyOp x => destructor w x

/-- State effect of a sequence of operations. -/
def applyOps (ops : List Op) (w : World) : World := ops.foldl applyOp w

/-- Whether an operation is one of `connect` or the four `disconnect` arities. -/
def Op.isConnectOrDisconnect : Op → Bool
  | .connectOp _ _ _ _ => true
  | .disconnect4Op _ _ _ _ => true
  | .disconnect3Op _ _ _ => true
  | .disconnect2Op _ _ => true
  | .disconnect1Op _ => true
  | .emitOp _ _ _ => false
  | .destroyOp _ => false

/-- Whether some registry entry of `st` holds a slot binding whose receiver is
`x` (the registry "references" `x`). -/
def referencesObj (st : SObjState) (x : ObjId) : Bool :=
  st.signalToSlotMap.any (fun p => p.2.any (fun b => b.receiver == x))

/-- The slot list the registry associates to key `k` (empty when the key is
absent): the list `emitSignal` iterates over. -/
def entrySlots (m : Registry) (k : SignalKey) : List SlotBinding :=
  ((m.find? (fun p => compareByPointerSig p.1 k)).map Prod.snd).getD []

/-- Connect a list of (receiver, slot) pairs to the same signal `s` of the
same emitter `a`, in list order. -/
def connectAll (a : ObjId) (s : SigId) (pairs : List (ObjId × SlotId)) (w : World) : World :=
  pairs.foldl (fun acc p => connect acc a s p.1 p.2) w

/-- The registry entries whose key equals `k` (used to state that operations
naming one signal leave every other signal's entries untouched). -/
def entriesForKey (m : Registry) (k : SignalKey) : Registry :=
  m.filter (fun p => p.1 == k)

/-- The projection of a registry that forgets the mutable `m_inputParams`
buffers: the signal keys with their (receiver, slot) binding lists, in order.
This is the connection state proper. -/
def registryShape (m : Registry) : List (SignalKey × List (ObjId × SlotId)) :=
  m.map (fun p => (p.1, p.2.map (fun b => (b.receiver, b.slot))))

/-- Structural well-formedness of one registry: no two entries carry
value-equal signal keys, and no entry has an empty slot list. -/
def wfRegistry (m : Registry) : Prop :=
  (m.map Prod.fst).Nodup ∧ ∀ p ∈ m, p.2 ≠ []

/-- Structural well-formedness of every object's registry. -/
def wfWorld (w : World) : Prop := ∀ i, wfRegistry (w i).signalToSlotMap

/-- The cross-consistency invariant: every slot binding stored in any
emitter's registry has a receiver whose back-reference list contains that
emitter, and every emitter listed in a receiver's back-reference list still
has at least one binding to that receiver somewhere in its registry. -/
def crossConsistent (w : World) : Prop :=
  (∀ e p b, p ∈ (w e).signalToSlotMap → b ∈ p.2 →
    e ∈ (w b.receiver).slotToSignalObjectList) ∧
  (∀ r em, em ∈ (w r).slotToSignalObjectList → connectedWithObject (w em) r = true)

/-! ### Basic lemmas about the heap and the comparators -/

@[simp] theorem setObj_self (w : World) (i : ObjId) (s : SObjState) : setObj w i s i = s := by
  simp [setObj]

theorem setObj_other (w : World) (i j : ObjId) (s : SObjState) (h : j ≠ i) :
    setObj w i s j = w j := by
  simp [setObj, h]

theorem setObj_apply (w : World) (i : ObjId) (s : SObjState) (j : ObjId) :
    setObj w i s j = if j = i then s else w j := rfl

@[simp] theorem compareByPointerSig_iff (a b : SignalKey) :
    compareByPointerSig a b = true ↔ a = b := by
  cases a; cases b; simp [compareByPointerSig]

@[simp] theorem compareByPointerSlot_iff (a b : SlotBinding) :
    compareByPointerSlot a b = true ↔ a.receiver = b.receiver ∧ a.slot = b.slot := by
  cases a; cases b; simp [compareByPointerSlot]

@[simp] theorem compareByReceiver_iff (a : SlotBinding) (r : ObjId) :
    compareByReceiver a r = true ↔ a.receiver = r := by
  simp [compareByReceiver]

/-! ### Pointwise characterisation of connect -/

theorem connect_map (w : World) (e : ObjId) (s : SigId) (r : ObjId) (sl : SlotId) (j : ObjId) :
    ((connect w e s r sl) j).signalToSlotMap =
      if j = e then insertBindingList (w e).signalToSlotMap ⟨e, s⟩ ⟨r, sl, []⟩
      else (w j).signalToSlotMap := by
  simp only [connect, setObj_apply]
  split_ifs <;> simp_all

theorem connect_back (w : World) (e : ObjId) (s : SigId) (r : ObjId) (sl : SlotId) (j : ObjId) :
    ((connect w e s r sl) j).slotToSignalObjectList =
      if j = r then addBackRef (w r).slotToSignalObjectList e
      else (w j).slotToSignalObjectList := by
  simp only [connect, setObj_apply]
  split_ifs <;> simp_all

/-! ### Pointwise characterisation of the two narrow disconnects -/

theorem disconnectCore_map (w : World) (e : ObjId) (m1 : Registry) (r : ObjId) (j : ObjId) :
    ((disconnectCore w e m1 r) j).signalToSlotMap =
      if j = e then m1 else (w j).signalToSlotMap := by
  unfold disconnectCore
  by_cases hc : connectedWithObject (setObj w e { w e with signalToSlotMap := m1 } e) r
  · simp only [hc, if_true]
    by_cases he : j = e <;> simp_all [setObj_apply]
  · simp only [hc, if_false]
    by_cases hr : j = r
    · subst hr
      by_cases he : j = e <;> simp_all [setObj_apply]
    · by_cases he : j = e <;> simp_all [setObj_apply]

theorem disconnectCore_back (w : World) (e : ObjId) (m1 : Registry) (r : ObjId) (j : ObjId) :
    ((disconnectCore w e m1 r) j).slotToSignalObjectList =
      if anyBindingTo m1 r = false ∧ j = r
      then (w j).slotToSignalObjectList.filter (fun x => x != e)
      else (w j).slotToSignalObjectList := by
  unfold disconnectCore
  have hcw : connectedWithObject (setObj w e { w e with signalToSlotMap := m1 } e) r
      = anyBindingTo m1 r := by
    simp [connectedWithObject, setObj_apply]
  rw [hcw]
  cases hab : anyBindingTo m1 r
  · simp only [if_neg (by simp [hab] : ¬ (anyBindingTo m1 r = true)), hab, true_and]
    by_cases hr : j = r
    · subst hr
      by_cases he : j = e <;> simp_all [setObj_apply]
    · by_cases he : j = e <;> simp_all [setObj_apply]
  · simp only [hab, if_true]
    by_cases he : j = e <;> simp_all [setObj_apply]

theorem disconnect4_map (w : World) (e : ObjId) (s : SigId) (r : ObjId) (sl : SlotId) (j : ObjId) :
    ((disconnect4 w e s r sl) j).signalToSlotMap =
      if signalIsPresent (w e) ⟨e, s⟩ ∧ j = e
      then removeFromEntry (w e).signalToSlotMap ⟨e, s⟩ (fun b => compareByPointerSlot b ⟨r, sl, []⟩)
      else (w j).signalToSlotMap := by
  unfold disconnect4
  by_cases hp : signalIsPresent (w e) ⟨e, s⟩ <;>
    simp [hp, disconnectCore_map]

theorem disconnect4_back (w : World) (e : ObjId) (s : SigId) (r : ObjId) (sl : SlotId) (j : ObjId) :
    ((disconnect4 w e s r sl) j).slotToSignalObjectList =
      if signalIsPresent (w e) ⟨e, s⟩ ∧ j = r ∧
         anyBindingTo (removeFromEntry (w e).signalToSlotMap ⟨e, s⟩
           (fun b => compareByPointerSlot b ⟨r, sl, []⟩)) r = false
      then (w j).slotToSignalObjectList.filter (fun x => x != e)
      else (w j).slotToSignalObjectList := by
  unfold disconnect4
  by_cases hp : signalIsPresent (w e) ⟨e, s⟩ <;>
    simp [hp, disconnectCore_back, and_comm]

theorem disconnect3_map (w : World) (e : ObjId) (s : SigId) (r : ObjId) (j : ObjId) :
    ((disconnect3 w e s r) j).signalToSlotMap =
      if signalIsPresent (w e) ⟨e, s⟩ ∧ j = e
      then removeFromEntry (w e).signalToSlotMap ⟨e, s⟩ (fun b => compareByReceiver b r)
      else (w j).signalToSlotMap := by
  unfold disconnect3
  by_cases hp : signalIsPresent (w e) ⟨e, s⟩ <;>
    simp [hp, disconnectCore_map]

theorem disconnect3_back (w : World) (e : ObjId) (s : SigId) (r : ObjId) (j : ObjId) :
    ((disconnect3 w e s r) j).slotToSignalObjectList =
      if signalIsPresent (w e) ⟨e, s⟩ ∧ j = r ∧
         anyBindingTo (removeFromEntry (w e).signalToSlotMap ⟨e, s⟩
           (fun b => compareByReceiver b r)) r = false
      then (w j).slotToSignalObjectList.filter (fun x => x != e)
      else (w j).slotToSignalObjectList := by
  unfold disconnect3
  by_cases hp : signalIsPresent (w e) ⟨e, s⟩ <;>
    simp [hp, disconnectCore_back, and_comm]

/-! ### Pointwise characterisation of emit -/

theorem emitSignal_trace (w : World) (e : ObjId) (s : SigId) (args : List SVal) :
    (emitSignal w e s args).2 =
      (entrySlots (w e).signalToSlotMap ⟨e, s⟩).map (fun b => (b.receiver, b.slot, args)) := by
  unfold emitSignal entrySlots
  cases h : (w e).signalToSlotMap.find? (fun p => compareByPointerSig p.1 ⟨e, s⟩) <;> simp [h]

theorem emitSignal_fst_map (w : World) (e : ObjId) (s : SigId) (args : List SVal) (j : ObjId) :
    (((emitSignal w e s args).1) j).signalToSlotMap =
      if ((w e).signalToSlotMap.find? (fun p => compareByPointerSig p.1 ⟨e, s⟩)).isSome ∧ j = e
      then setParamsInEntry (w e).signalToSlotMap ⟨e, s⟩ args
      else (w j).signalToSlotMap := by
  unfold emitSignal
  cases h : (w e).signalToSlotMap.find? (fun p => compareByPointerSig p.1 ⟨e, s⟩) <;>
    by_cases he : j = e <;> simp [h, setObj, he]

theorem emitSignal_fst_back (w : World) (e : ObjId) (s : SigId) (args : List SVal) (j : ObjId) :
    (((emitSignal w e s args).1) j).slotToSignalObjectList =
      (w j).slotToSignalObjectList := by
  unfold emitSignal
  cases h : (w e).signalToSlotMap.find? (fun p => compareByPointerSig p.1 ⟨e, s⟩) <;>
    by_cases he : j = e <;> simp [h, setObj, he]

/-! ### Membership in getAllReceivers -/

theorem mem_insertSorted (x a : ObjId) (l : List ObjId) :
    x ∈ insertSorted a l ↔ x = a ∨ x ∈ l := by
  induction l with
  | nil => simp [insertSorted]
  | cons y ys ih =>
      by_cases h : a ≤ y <;> simp [insertSorted, h, ih] <;> tauto

theorem mem_sortIds (x : ObjId) (l : List ObjId) : x ∈ sortIds l ↔ x ∈ l := by
  induction l with
  | nil => simp [sortIds]
  | cons y ys ih =>
      simp only [sortIds, List.foldr_cons] at ih ⊢
      rw [mem_insertSorted]
      simp [ih]

theorem mem_uniqueAdj (x : ObjId) (l : List ObjId) : x ∈ uniqueAdj l ↔ x ∈ l := by
  induction l with
  | nil => simp [uniqueAdj]
  | cons y ys ih =>
      cases ys with
      | nil => simp [uniqueAdj]
      | cons z zs =>
          by_cases h : y = z <;> simp [uniqueAdj, h] at ih ⊢ <;> simp [ih] <;> tauto

theorem mem_collectReceivers (m : Registry) (sig : Option SignalKey) (x : ObjId) :
    x ∈ collectReceivers m sig ↔
      ∃ p ∈ m, sigFilterMatches p.1 sig = true ∧ ∃ b ∈ p.2, b.receiver = x := by
  induction m with
  | nil => simp [collectReceivers]
  | cons p rest ih =>
      by_cases h : sigFilterMatches p.1 sig <;> simp [collectReceivers, h, ih] <;> tauto

theorem mem_getAllReceivers (st : SObjState) (sig : Option SignalKey) (x : ObjId) :
    x ∈ getAllReceivers st sig ↔
      ∃ p ∈ st.signalToSlotMap, sigFilterMatches p.1 sig = true ∧ ∃ b ∈ p.2, b.receiver = x := by
  rw [getAllReceivers, mem_uniqueAdj, mem_sortIds, mem_collectReceivers]

/-! ### The receiver and purge loops -/

theorem removeBackRefLoop_map (e : ObjId) (rs : List ObjId) (w : World) (j : ObjId) :
    ((removeBackRefLoop e rs w) j).signalToSlotMap = (w j).signalToSlotMap := by
  induction rs generalizing w with
  | nil => rfl
  | cons r rs ih =>
      simp only [removeBackRefLoop, List.foldl_cons] at ih ⊢
      rw [ih]
      by_cases hj : j = r <;> simp [setObj_apply, hj]

theorem removeBackRefLoop_back (e : ObjId) (rs : List ObjId) (w : World) (j : ObjId) :
    ((removeBackRefLoop e rs w) j).slotToSignalObjectList =
      if j ∈ rs then (w j).slotToSignalObjectList.filter (fun x => x != e)
      else (w j).slotToSignalObjectList := by
  induction rs generalizing w with
  | nil => simp [removeBackRefLoop]
  | cons r rs ih =>
      simp only [removeBackRefLoop, List.foldl_cons] at ih ⊢
      rw [ih]
      by_cases hj : j = r
      · subst hj
        by_cases hmem : j ∈ rs <;>
          simp [setObj_apply, hmem, List.filter_filter]
      · by_cases hmem : j ∈ rs <;> simp [setObj_apply, hj, hmem]

theorem removeBackRefLoopChecked_map (e : ObjId) (rs : List ObjId) (w : World) (j : ObjId) :
    ((removeBackRefLoopChecked e rs w) j).signalToSlotMap = (w j).signalToSlotMap := by
  induction rs generalizing w with
  | nil => rfl
  | cons r rs ih =>
      simp only [removeBackRefLoopChecked, List.foldl_cons] at ih ⊢
      rw [ih]
      by_cases hc : connectedWithObject (w e) r <;> by_cases hj : j = r <;>
        simp [setObj_apply, hc, hj]

theorem removeBackRefLoopChecked_back (e : ObjId) (rs : List ObjId) (w : World) (j : ObjId) :
    ((removeBackRefLoopChecked e rs w) j).slotToSignalObjectList =
      if j ∈ rs ∧ anyBindingTo (w e).signalToSlotMap j = false
      then (w j).slotToSignalObjectList.filter (fun x => x != e)
      else (w j).slotToSignalObjectList := by
  induction rs generalizing w with
  | nil => simp [removeBackRefLoopChecked]
  | cons r rs ih =>
      simp only [removeBackRefLoopChecked, List.foldl_cons] at ih ⊢
      rw [ih]
      by_cases hc : connectedWithObject (w e) r
      · have hc' : anyBindingTo (w e).signalToSlotMap r = true := hc
        by_cases hj : j = r <;> by_cases hmem : j ∈ rs <;>
          simp_all [setObj_apply, connectedWithObject]
      · have hc' : anyBindingTo (w e).signalToSlotMap r = false := by
          simpa [connectedWithObject] using hc
        by_cases hj : j = r
        · subst hj
          by_cases hje : j = e <;> by_cases hmem : j ∈ rs <;>
            simp_all [setObj_apply, connectedWithObject, List.filter_filter]
        · by_cases hje : e = r <;> by_cases hmem : j ∈ rs <;>
            simp_all [setObj_apply, connectedWithObject]

theorem purgeLoop_back (x : ObjId) (os : List ObjId) (w : World) (j : ObjId) :
    ((purgeLoop x os w) j).slotToSignalObjectList = (w j).slotToSignalObjectList := by
  induction os generalizing w with
  | nil => rfl
  | cons o os ih =>
      simp only [purgeLoop, List.foldl_cons] at ih ⊢
      rw [ih]
      by_cases hj : j = o <;> simp [setObj_apply, hj]

theorem removeReceiverEverywhere_idem (m : Registry) (x : ObjId) :
    removeReceiverEverywhere (removeReceiverEverywhere m x) x = removeReceiverEverywhere m x := by
  induction m with
  | nil => rfl
  | cons p rest ih =>
      obtain ⟨k, l⟩ := p
      by_cases h : (l.filter (fun b => !(compareByReceiver b x))).isEmpty <;>
        simp [removeReceiverEverywhere, h, ih, List.filter_filter]

theorem purgeLoop_map (x : ObjId) (os : List ObjId) (w : World) (j : ObjId) :
    ((purgeLoop x os w) j).signalToSlotMap =
      if j ∈ os then removeReceiverEverywhere (w j).signalToSlotMap x
      else (w j).signalToSlotMap := by
  induction os generalizing w with
  | nil => simp [purgeLoop]
  | cons o os ih =>
      simp only [purgeLoop, List.foldl_cons] at ih ⊢
      rw [ih]
      by_cases hj : j = o
      · subst hj
        by_cases hmem : j ∈ os <;>
          simp [setObj_apply, hmem, removeReceiverEverywhere_idem]
      · by_cases hmem : j ∈ os <;> simp [setObj_apply, hj, hmem]

/-! ### Pointwise characterisation of the broad disconnects and the destructor -/

theorem disconnect2_map (w : World) (e : ObjId) (s : SigId) (j : ObjId) :
    ((disconnect2 w e s) j).signalToSlotMap =
      if signalIsPresent (w e) ⟨e, s⟩ ∧ j = e
      then removeEntry (w e).signalToSlotMap ⟨e, s⟩
      else (w j).signalToSlotMap := by
  by_cases hp : signalIsPresent (w e) ⟨e, s⟩ <;>
    by_cases hj : j = e <;>
      simp [disconnect2, hp, hj, removeBackRefLoopChecked_map, setObj_apply]

theorem disconnect2_back (w : World) (e : ObjId) (s : SigId) (j : ObjId) :
    ((disconnect2 w e s) j).slotToSignalObjectList =
      if signalIsPresent (w e) ⟨e, s⟩ ∧ j ∈ getAllReceivers (w e) (some ⟨e, s⟩) ∧
         anyBindingTo (removeEntry (w e).signalToSlotMap ⟨e, s⟩) j = false
      then (w j).slotToSignalObjectList.filter (fun x => x != e)
      else (w j).slotToSignalObjectList := by
  by_cases hp : signalIsPresent (w e) ⟨e, s⟩
  · simp only [disconnect2, hp, if_true, true_and]
    rw [removeBackRefLoopChecked_back]
    by_cases hj : j = e <;> simp [setObj_apply, hj]
  · simp [disconnect2, hp]

theorem disconnect1_map (w : World) (e : ObjId) (j : ObjId) :
    ((disconnect1 w e) j).signalToSlotMap =
      if j = e then [] else (w j).signalToSlotMap := by
  by_cases hj : j = e <;>
    simp [disconnect1, removeBackRefLoop_map, setObj_apply, hj]

theorem disconnect1_back (w : World) (e : ObjId) (j : ObjId) :
    ((disconnect1 w e) j).slotToSignalObjectList =
      if j ∈ getAllReceivers (w e) none
      then (w j).slotToSignalObjectList.filter (fun x => x != e)
      else (w j).slotToSignalObjectList := by
  simp only [disconnect1]
  rw [removeBackRefLoop_back]
  by_cases hj : j = e <;> simp [setObj_apply, hj]

theorem destructor_map (w : World) (x : ObjId) (j : ObjId) :
    ((destructor w x) j).signalToSlotMap =
      if j = x then
        (if j ∈ ((disconnect1 w x) x).slotToSignalObjectList
         then removeReceiverEverywhere [] x else [])
      else
        (if j ∈ ((disconnect1 w x) x).slotToSignalObjectList
         then removeReceiverEverywhere (w j).signalToSlotMap x
         else (w j).signalToSlotMap) := by
  simp only [destructor]
  by_cases hj : j = x
  · subst hj
    simp [setObj_apply, purgeLoop_map, disconnect1_map]
  · simp [setObj_apply, hj, purgeLoop_map, disconnect1_map]

theorem destructor_back (w : World) (x : ObjId) (j : ObjId) :
    ((destructor w x) j).slotToSignalObjectList =
      if j = x then []
      else ((disconnect1 w x) j).slotToSignalObjectList := by
  simp only [destructor]
  by_cases hj : j = x <;> simp [setObj_apply, hj, purgeLoop_back]

/-! ### Registry membership lemmas -/

theorem mem_addBackRef (x : ObjId) (l : List ObjId) (e : ObjId) :
    x ∈ addBackRef l e ↔ x ∈ l ∨ x = e := by
  by_cases h : l.contains e
  · have he : e ∈ l := by simpa using h
    simp only [addBackRef, h, if_true]
    constructor
    · exact Or.inl
    · rintro (hx | rfl)
      · exact hx
      · exact he
  · have he : ¬ e ∈ l := by simpa using h
    simp [addBackRef, h, he]

theorem mem_filter_bne (x e : ObjId) (l : List ObjId) :
    x ∈ l.filter (fun y => y != e) ↔ x ∈ l ∧ x ≠ e := by
  simp [List.mem_filter]

theorem anyBindingTo_iff (m : Registry) (r : ObjId) :
    anyBindingTo m r = true ↔ ∃ p ∈ m, ∃ b ∈ p.2, b.receiver = r := by
  simp [anyBindingTo, List.any_eq_true, compareByReceiver]

theorem signalPresentIn_iff (m : Registry) (k : SignalKey) :
    signalPresentIn m k = true ↔ ∃ p ∈ m, p.1 = k := by
  simp [signalPresentIn, List.any_eq_true]

theorem removeFromEntry_cons (k' : SignalKey) (l : List SlotBinding) (rest : Registry)
    (k : SignalKey) (pred : SlotBinding → Bool) :
    removeFromEntry ((k', l) :: rest) k pred =
      if compareByPointerSig k' k then
        (if (l.filter (fun x => !(pred x))).isEmpty then rest
         else (k', l.filter (fun x => !(pred x))) :: rest)
      else (k', l) :: removeFromEntry rest k pred := rfl

theorem removeEntry_cons (k' : SignalKey) (l : List SlotBinding) (rest : Registry)
    (k : SignalKey) :
    removeEntry ((k', l) :: rest) k =
      if compareByPointerSig k' k then rest else (k', l) :: removeEntry rest k := rfl

theorem insertBindingList_cons (k' : SignalKey) (l : List SlotBinding) (rest : Registry)
    (k : SignalKey) (b : SlotBinding) :
    insertBindingList ((k', l) :: rest) k b =
      if compareByPointerSig k' k then (k', l ++ [b]) :: rest
      else (k', l) :: insertBindingList rest k b := rfl

theorem bindings_insertBindingList (m : Registry) (k : SignalKey) (b b' : SlotBinding) :
    (∃ p ∈ insertBindingList m k b, b' ∈ p.2) ↔ (∃ p ∈ m, b' ∈ p.2) ∨ b' = b := by
  induction m with
  | nil =>
      constructor
      · rintro ⟨p, hp, hb⟩
        rw [List.mem_singleton.mp hp] at hb
        exact Or.inr (List.mem_singleton.mp hb)
      · rintro (⟨p, hp, _⟩ | rfl)
        · simp at hp
        · exact ⟨(k, [b']), List.mem_singleton.mpr rfl, List.mem_singleton.mpr rfl⟩
  | cons q rest ih =>
      obtain ⟨k', l⟩ := q
      rw [insertBindingList_cons]
      by_cases h : compareByPointerSig k' k
      · rw [if_pos h]
        constructor
        · rintro ⟨p, hp, hb⟩
          rcases List.mem_cons.mp hp with rfl | hrest
          · rcases List.mem_append.mp hb with hl | hb1
            · exact Or.inl ⟨(k', l), List.mem_cons_self _ _, hl⟩
            · exact Or.inr (List.mem_singleton.mp hb1)
          · exact Or.inl ⟨p, List.mem_cons_of_mem _ hrest, hb⟩
        · rintro (⟨p, hp, hb⟩ | rfl)
          · rcases List.mem_cons.mp hp with rfl | hrest
            · exact ⟨(k', l ++ [b]), List.mem_cons_self _ _, List.mem_append.mpr (Or.inl hb)⟩
            · exact ⟨p, List.mem_cons_of_mem _ hrest, hb⟩
          · exact ⟨(k', l ++ [b']), List.mem_cons_self _ _,
              List.mem_append.mpr (Or.inr (List.mem_singleton.mpr rfl))⟩
      · rw [if_neg h]
        constructor
        · rintro ⟨p, hp, hb⟩
          rcases List.mem_cons.mp hp with rfl | hrest
          · exact Or.inl ⟨(k', l), List.mem_cons_self _ _, hb⟩
          · rcases ih.mp ⟨p, hrest, hb⟩ with ⟨p', hp', hb'⟩ | hbb
            · exact Or.inl ⟨p', List.mem_cons_of_mem _ hp', hb'⟩
            · exact Or.inr hbb
        · rintro (⟨p, hp, hb⟩ | rfl)
          · rcases List.mem_cons.mp hp with rfl | hrest
            · exact ⟨(k', l), List.mem_cons_self _ _, hb⟩
            · rcases ih.mpr (Or.inl ⟨p, hrest, hb⟩) with ⟨p', hp', hb'⟩
              exact ⟨p', List.mem_cons_of_mem _ hp', hb'⟩
          · rcases ih.mpr (Or.inr rfl) with ⟨p', hp', hb'⟩
            exact ⟨p', List.mem_cons_of_mem _ hp', hb'⟩

theorem bindings_removeFromEntry_sub (m : Registry) (k : SignalKey)
    (pred : SlotBinding → Bool) (b' : SlotBinding)
    (h : ∃ p ∈ removeFromEntry m k pred, b' ∈ p.2) : ∃ p ∈ m, b' ∈ p.2 := by
  induction m with
  | nil => simpa [removeFromEntry] using h
  | cons q rest ih =>
      obtain ⟨k', l⟩ := q
      rw [removeFromEntry_cons] at h
      by_cases hc : compareByPointerSig k' k
      · rw [if_pos hc] at h
        by_cases hemp : (l.filter (fun x => !(pred x))).isEmpty
        · rw [if_pos hemp] at h
          rcases h with ⟨p, hp, hb⟩
          exact ⟨p, List.mem_cons_of_mem _ hp, hb⟩
        · rw [if_neg hemp] at h
          rcases h with ⟨p, hp, hb⟩
          rcases List.mem_cons.mp hp with rfl | hrest
          · exact ⟨(k', l), List.mem_cons_self _ _, (List.mem_filter.mp hb).1⟩
          · exact ⟨p, List.mem_cons_of_mem _ hrest, hb⟩
      · rw [if_neg hc] at h
        rcases h with ⟨p, hp, hb⟩
        rcases List.mem_cons.mp hp with rfl | hrest
        · exact ⟨(k', l), List.mem_cons_self _ _, hb⟩
        · rcases ih ⟨p, hrest, hb⟩ with ⟨p', hp', hb'⟩
          exact ⟨p', List.mem_cons_of_mem _ hp', hb'⟩

theorem bindings_removeFromEntry_pres (m : Registry) (k : SignalKey)
    (pred : SlotBinding → Bool) (b' : SlotBinding)
    (hb : ∃ p ∈ m, b' ∈ p.2) (hpred : pred b' = false) :
    ∃ p ∈ removeFromEntry m k pred, b' ∈ p.2 := by
  induction m with
  | nil => simpa [removeFromEntry] using hb
  | cons q rest ih =>
      obtain ⟨k', l⟩ := q
      rw [removeFromEntry_cons]
      rcases hb with ⟨p, hp, hbp⟩
      rcases List.mem_cons.mp hp with rfl | hprest
      · have hbl : b' ∈ l := hbp
        by_cases hc : compareByPointerSig k' k
        · rw [if_pos hc]
          have hmemfil : b' ∈ l.filter (fun x => !(pred x)) :=
            List.mem_filter.mpr ⟨hbl, by simp [hpred]⟩
          have hemp : ¬ (l.filter (fun x => !(pred x))).isEmpty := by
            intro hfe
            rw [List.isEmpty_iff] at hfe
            rw [hfe] at hmemfil
            simp at hmemfil
          rw [if_neg hemp]
          exact ⟨_, List.mem_cons_self _ _, hmemfil⟩
        · rw [if_neg hc]
          exact ⟨(k', l), List.mem_cons_self _ _, hbl⟩
      · by_cases hc : compareByPointerSig k' k
        · rw [if_pos hc]
          by_cases hemp : (l.filter (fun x => !(pred x))).isEmpty
          · rw [if_pos hemp]
            exact ⟨p, hprest, hbp⟩
          · rw [if_neg hemp]
            exact ⟨p, List.mem_cons_of_mem _ hprest, hbp⟩
        · rw [if_neg hc]
          rcases ih ⟨p, hprest, hbp⟩ with ⟨p', hp', hb'⟩
          exact ⟨p', List.mem_cons_of_mem _ hp', hb'⟩

theorem bindings_removeEntry_sub (m : Registry) (k : SignalKey) (b' : SlotBinding)
    (h : ∃ p ∈ removeEntry m k, b' ∈ p.2) : ∃ p ∈ m, b' ∈ p.2 := by
  induction m with
  | nil => simpa [removeEntry] using h
  | cons q rest ih =>
      obtain ⟨k', l⟩ := q
      rw [removeEntry_cons] at h
      by_cases hc : compareByPointerSig k' k
      · rw [if_pos hc] at h
        rcases h with ⟨p, hp, hb⟩
        exact ⟨p, List.mem_cons_of_mem _ hp, hb⟩
      · rw [if_neg hc] at h
        rcases h with ⟨p, hp, hb⟩
        rcases List.mem_cons.mp hp with rfl | hrest
        · exact ⟨(k', l), List.mem_cons_self _ _, hb⟩
        · rcases ih ⟨p, hrest, hb⟩ with ⟨p', hp', hb'⟩
          exact ⟨p', List.mem_cons_of_mem _ hp', hb'⟩

theorem mem_removeEntry_nonkey (m : Registry) (k : SignalKey)
    (p : SignalKey × List SlotBinding)
    (hp : p ∈ m) (hk : ¬ p.1 = k) : p ∈ removeEntry m k := by
  induction m with
  | nil => simpa using hp
  | cons q rest ih =>
      obtain ⟨k', l⟩ := q
      rw [removeEntry_cons]
      rcases List.mem_cons.mp hp with rfl | hprest
      · have hc : ¬ compareByPointerSig k' k = true := by
          intro hcc
          exact hk ((compareByPointerSig_iff _ _).mp hcc)
        rw [if_neg hc]
        exact List.mem_cons_self _ _
      · by_cases hc : compareByPointerSig k' k
        · rw [if_pos hc]
          exact hprest
        · rw [if_neg hc]
          exact List.mem_cons_of_mem _ (ih hprest)

/-! ### Preservation of cross-consistency -/

theorem crossConsistent_emptyWorld : crossConsistent emptyWorld := by
  constructor
  · intro e p b hp _
    simp [emptyWorld, emptySObj] at hp
  · intro r em hmem
    simp [emptyWorld, emptySObj] at hmem

theorem crossConsistent_connect (w : World) (e : ObjId) (s : SigId) (r : ObjId) (sl : SlotId)
    (h : crossConsistent w) : crossConsistent (connect w e s r sl) := by
  obtain ⟨h1, h2⟩ := h
  constructor
  · intro e0 p b hp hb
    rw [connect_map] at hp
    rw [connect_back]
    by_cases he0 : e0 = e
    · subst he0
      rw [if_pos rfl] at hp
      rcases (bindings_insertBindingList _ _ _ b).mp ⟨p, hp, hb⟩ with ⟨q, hq, hbq⟩ | rfl
      · have hold := h1 e0 q b hq hbq
        by_cases hr : b.receiver = r
        · rw [if_pos hr]
          rw [hr] at hold
          exact (mem_addBackRef _ _ _).mpr (Or.inl hold)
        · rw [if_neg hr]
          exact hold
      · have hrecv : (⟨r, sl, []⟩ : SlotBinding).receiver = r := rfl
        rw [if_pos hrecv]
        exact (mem_addBackRef _ _ _).mpr (Or.inr rfl)
    · rw [if_neg he0] at hp
      have hold := h1 e0 p b hp hb
      by_cases hr : b.receiver = r
      · rw [if_pos hr]
        rw [hr] at hold
        exact (mem_addBackRef _ _ _).mpr (Or.inl hold)
      · rw [if_neg hr]
        exact hold
  · intro r0 em hmem
    rw [connect_back] at hmem
    simp only [connectedWithObject, connect_map]
    by_cases hr0 : r0 = r
    · subst hr0
      rw [if_pos rfl] at hmem
      rcases (mem_addBackRef _ _ _).mp hmem with hold | rfl
      · have hc := h2 _ _ hold
        simp only [connectedWithObject] at hc
        by_cases hem : em = e
        · subst hem
          rw [if_pos rfl]
          rcases (anyBindingTo_iff _ _).mp hc with ⟨q, hq, b, hb, hbr⟩
          rcases (bindings_insertBindingList _ _ _ b).mpr (Or.inl ⟨q, hq, hb⟩)
            with ⟨q', hq', hb'⟩
          exact (anyBindingTo_iff _ _).mpr ⟨q', hq', b, hb', hbr⟩
        · rw [if_neg hem]
          exact hc
      · rw [if_pos rfl]
        rcases (bindings_insertBindingList (w em).signalToSlotMap ⟨em, s⟩ ⟨r0, sl, []⟩
            ⟨r0, sl, []⟩).mpr (Or.inr rfl) with ⟨q', hq', hb'⟩
        exact (anyBindingTo_iff _ _).mpr ⟨q', hq', ⟨r0, sl, []⟩, hb', rfl⟩
    · rw [if_neg hr0] at hmem
      have hc := h2 _ _ hmem
      simp only [connectedWithObject] at hc
      by_cases hem : em = e
      · subst hem
        rw [if_pos rfl]
        rcases (anyBindingTo_iff _ _).mp hc with ⟨q, hq, b, hb, hbr⟩
        rcases (bindings_insertBindingList _ _ _ b).mpr (Or.inl ⟨q, hq, hb⟩)
          with ⟨q', hq', hb'⟩
        exact (anyBindingTo_iff _ _).mpr ⟨q', hq', b, hb', hbr⟩
      · rw [if_neg hem]
        exact hc

theorem crossConsistent_disconnectCore (w : World) (e : ObjId) (s : SigId)
    (pred : SlotBinding → Bool) (r : ObjId)
    (hpred : ∀ b, pred b = true → b.receiver = r)
    (h : crossConsistent w) :
    crossConsistent
      (if signalIsPresent (w e) ⟨e, s⟩
       then disconnectCore w e (removeFromEntry (w e).signalToSlotMap ⟨e, s⟩ pred) r
       else w) := by
  by_cases hp : signalIsPresent (w e) ⟨e, s⟩
  case neg => rwa [if_neg hp]
  case pos =>
  rw [if_pos hp]
  obtain ⟨h1, h2⟩ := h
  constructor
  · intro e0 p b hpmem hb
    rw [disconnectCore_map] at hpmem
    rw [disconnectCore_back]
    by_cases he0 : e0 = e
    · subst he0
      rw [if_pos rfl] at hpmem
      rcases bindings_removeFromEntry_sub _ _ _ _ ⟨p, hpmem, hb⟩ with ⟨q, hq, hbq⟩
      have hold := h1 e0 q b hq hbq
      by_cases hcond : anyBindingTo (removeFromEntry (w e0).signalToSlotMap ⟨e0, s⟩ pred) r
          = false ∧ b.receiver = r
      · exfalso
        have htrue : anyBindingTo (removeFromEntry (w e0).signalToSlotMap ⟨e0, s⟩ pred) r
            = true :=
          (anyBindingTo_iff _ _).mpr ⟨p, hpmem, b, hb, hcond.2⟩
        rw [htrue] at hcond
        exact absurd hcond.1 (by simp)
      · rw [if_neg hcond]
        exact hold
    · rw [if_neg he0] at hpmem
      have hold := h1 e0 p b hpmem hb
      by_cases hcond : anyBindingTo (removeFromEntry (w e).signalToSlotMap ⟨e, s⟩ pred) r
          = false ∧ b.receiver = r
      · rw [if_pos hcond]
        exact (mem_filter_bne _ _ _).mpr ⟨hold, he0⟩
      · rw [if_neg hcond]
        exact hold
  · intro r0 em hmem
    rw [disconnectCore_back] at hmem
    simp only [connectedWithObject, disconnectCore_map]
    by_cases hcond : anyBindingTo (removeFromEntry (w e).signalToSlotMap ⟨e, s⟩ pred) r
        = false ∧ r0 = r
    · rw [if_pos hcond] at hmem
      have hmem' := (mem_filter_bne _ _ _).mp hmem
      have hc := h2 r0 em hmem'.1
      simp only [connectedWithObject] at hc
      by_cases hem : em = e
      · exact absurd hem hmem'.2
      · rw [if_neg hem]
        exact hc
    · rw [if_neg hcond] at hmem
      have hc := h2 r0 em hmem
      simp only [connectedWithObject] at hc
      by_cases hem : em = e
      · subst hem
        rw [if_pos rfl]
        rcases (anyBindingTo_iff _ _).mp hc with ⟨q, hq, b, hb, hbr⟩
        by_cases hr0r : r0 = r
        · subst hr0r
          cases hab : anyBindingTo (removeFromEntry (w em).signalToSlotMap ⟨em, s⟩ pred) r0
          · exact absurd ⟨hab, rfl⟩ hcond
          · rfl
        · have hpredb : pred b = false := by
            cases hpb : pred b
            · rfl
            · exfalso
              apply hr0r
              rw [← hbr]
              exact hpred b hpb
          rcases bindings_removeFromEntry_pres (w em).signalToSlotMap ⟨em, s⟩ pred b
            ⟨q, hq, hb⟩ hpredb with ⟨q', hq', hb'⟩
          exact (anyBindingTo_iff _ _).mpr ⟨q', hq', b, hb', hbr⟩
      · rw [if_neg hem]
        exact hc

theorem crossConsistent_disconnect4 (w : World) (e : ObjId) (s : SigId) (r : ObjId)
    (sl : SlotId) (h : crossConsistent w) : crossConsistent (disconnect4 w e s r sl) := by
  have hgen := crossConsistent_disconnectCore w e s
    (fun b => compareByPointerSlot b ⟨r, sl, []⟩) r
    (fun b hb => ((compareByPointerSlot_iff _ _).mp hb).1) h
  exact hgen

theorem crossConsistent_disconnect3 (w : World) (e : ObjId) (s : SigId) (r : ObjId)
    (h : crossConsistent w) : crossConsistent (disconnect3 w e s r) := by
  have hgen := crossConsistent_disconnectCore w e s
    (fun b => compareByReceiver b r) r
    (fun b hb => (compareByReceiver_iff _ _).mp hb) h
  exact hgen

theorem crossConsistent_disconnect2 (w : World) (e : ObjId) (s : SigId)
    (h : crossConsistent w) : crossConsistent (disconnect2 w e s) := by
  obtain ⟨h1, h2⟩ := h
  constructor
  · intro e0 p b hpmem hb
    rw [disconnect2_map] at hpmem
    rw [disconnect2_back]
    by_cases he0 : signalIsPresent (w e) ⟨e, s⟩ = true ∧ e0 = e
    · obtain ⟨hsp, rfl⟩ := he0
      rw [if_pos ⟨hsp, rfl⟩] at hpmem
      rcases bindings_removeEntry_sub _ _ _ ⟨p, hpmem, hb⟩ with ⟨q, hq, hbq⟩
      have hold := h1 e0 q b hq hbq
      by_cases hcond : signalIsPresent (w e0) ⟨e0, s⟩ = true ∧
          b.receiver ∈ getAllReceivers (w e0) (some ⟨e0, s⟩) ∧
          anyBindingTo (removeEntry (w e0).signalToSlotMap ⟨e0, s⟩) b.receiver = false
      · exfalso
        have htrue : anyBindingTo (removeEntry (w e0).signalToSlotMap ⟨e0, s⟩) b.receiver
            = true :=
          (anyBindingTo_iff _ _).mpr ⟨p, hpmem, b, hb, rfl⟩
        rw [htrue] at hcond
        exact absurd hcond.2.2 (by simp)
      · rw [if_neg hcond]
        exact hold
    · rw [if_neg he0] at hpmem
      have hold := h1 e0 p b hpmem hb
      by_cases hcond : signalIsPresent (w e) ⟨e, s⟩ = true ∧
          b.receiver ∈ getAllReceivers (w e) (some ⟨e, s⟩) ∧
          anyBindingTo (removeEntry (w e).signalToSlotMap ⟨e, s⟩) b.receiver = false
      · rw [if_pos hcond]
        have hne : e0 ≠ e := by
          intro hcontra
          exact he0 ⟨hcond.1, hcontra⟩
        exact (mem_filter_bne _ _ _).mpr ⟨hold, hne⟩
      · rw [if_neg hcond]
        exact hold
  · intro r0 em hmem
    rw [disconnect2_back] at hmem
    simp only [connectedWithObject, disconnect2_map]
    by_cases hcond : signalIsPresent (w e) ⟨e, s⟩ = true ∧
        r0 ∈ getAllReceivers (w e) (some ⟨e, s⟩) ∧
        anyBindingTo (removeEntry (w e).signalToSlotMap ⟨e, s⟩) r0 = false
    · rw [if_pos hcond] at hmem
      have hmem' := (mem_filter_bne _ _ _).mp hmem
      have hc := h2 r0 em hmem'.1
      simp only [connectedWithObject] at hc
      by_cases hem : signalIsPresent (w e) ⟨e, s⟩ = true ∧ em = e
      · exact absurd hem.2 hmem'.2
      · rw [if_neg hem]
        exact hc
    · rw [if_neg hcond] at hmem
      have hc := h2 r0 em hmem
      simp only [connectedWithObject] at hc
      by_cases hem : signalIsPresent (w e) ⟨e, s⟩ = true ∧ em = e
      · obtain ⟨hsp, rfl⟩ := hem
        rw [if_pos ⟨hsp, rfl⟩]
        rcases (anyBindingTo_iff _ _).mp hc with ⟨q, hq, b, hb, hbr⟩
        by_cases hrs : r0 ∈ getAllReceivers (w em) (some ⟨em, s⟩)
        · cases hab : anyBindingTo (removeEntry (w em).signalToSlotMap ⟨em, s⟩) r0
          · exact absurd ⟨hsp, hrs, hab⟩ hcond
          · rfl
        · have hqk : ¬ q.1 = (⟨em, s⟩ : SignalKey) := by
            intro hk
            apply hrs
            rw [mem_getAllReceivers]
            refine ⟨q, hq, ?_, b, hb, hbr⟩
            simp [sigFilterMatches, hk]
          have hq' := mem_removeEntry_nonkey (w em).signalToSlotMap ⟨em, s⟩ q hq hqk
          exact (anyBindingTo_iff _ _).mpr ⟨q, hq', b, hb, hbr⟩
      · rw [if_neg hem]
        exact hc

theorem crossConsistent_disconnect1 (w : World) (e : ObjId)
    (h : crossConsistent w) : crossConsistent (disconnect1 w e) := by
  obtain ⟨h1, h2⟩ := h
  constructor
  · intro e0 p b hpmem hb
    rw [disconnect1_map] at hpmem
    rw [disconnect1_back]
    by_cases he0 : e0 = e
    · rw [if_pos he0] at hpmem
      simp at hpmem
    · rw [if_neg he0] at hpmem
      have hold := h1 e0 p b hpmem hb
      by_cases hcond : b.receiver ∈ getAllReceivers (w e) none
      · rw [if_pos hcond]
        exact (mem_filter_bne _ _ _).mpr ⟨hold, he0⟩
      · rw [if_neg hcond]
        exact hold
  · intro r0 em hmem
    rw [disconnect1_back] at hmem
    simp only [connectedWithObject, disconnect1_map]
    by_cases hcond : r0 ∈ getAllReceivers (w e) none
    · rw [if_pos hcond] at hmem
      have hmem' := (mem_filter_bne _ _ _).mp hmem
      have hc := h2 r0 em hmem'.1
      simp only [connectedWithObject] at hc
      rw [if_neg hmem'.2]
      exact hc
    · rw [if_neg hcond] at hmem
      have hc := h2 r0 em hmem
      simp only [connectedWithObject] at hc
      by_cases hem : em = e
      · exfalso
        subst hem
        apply hcond
        rcases (anyBindingTo_iff _ _).mp hc with ⟨q, hq, b, hb, hbr⟩
        rw [mem_getAllReceivers]
        exact ⟨q, hq, rfl, b, hb, hbr⟩
      · rw [if_neg hem]
        exact hc

theorem crossConsistent_applyOp (w : World) (op : Op)
    (hop : op.isConnectOrDisconnect = true)
    (h : crossConsistent w) : crossConsistent (applyOp w op) := by
  cases op with
  | connectOp e s r sl => exact crossConsistent_connect w e s r sl h
  | disconnect4Op e s r sl => exact crossConsistent_disconnect4 w e s r sl h
  | disconnect3Op e s r => exact crossConsistent_disconnect3 w e s r h
  | disconnect2Op e s => exact crossConsistent_disconnect2 w e s h
  | disconnect1Op e => exact crossConsistent_disconnect1 w e h
  | emitOp e s args => simp [Op.isConnectOrDisconnect] at hop
  | destroyOp x => simp [Op.isConnectOrDisconnect] at hop

/-! ### Preservation of registry well-formedness -/

theorem keys_insertBindingList_subset (m : Registry) (k : SignalKey) (b : SlotBinding)
    (x : SignalKey) (hx : x ∈ (insertBindingList m k b).map Prod.fst) :
    x ∈ m.map Prod.fst ∨ x = k := by
  induction m with
  | nil =>
      simp [insertBindingList] at hx
      exact Or.inr hx
  | cons q rest ih =>
      obtain ⟨k', l⟩ := q
      rw [insertBindingList_cons] at hx
      by_cases h : compareByPointerSig k' k
      · rw [if_pos h, List.map_cons, List.mem_cons] at hx
        rw [List.map_cons, List.mem_cons]
        rcases hx with rfl | hx
        · exact Or.inl (Or.inl rfl)
        · exact Or.inl (Or.inr hx)
      · rw [if_neg h, List.map_cons, List.mem_cons] at hx
        rw [List.map_cons, List.mem_cons]
        rcases hx with rfl | hx
        · exact Or.inl (Or.inl rfl)
        · rcases ih hx with h1 | h1
          · exact Or.inl (Or.inr h1)
          · exact Or.inr h1

theorem wf_insertBindingList (m : Registry) (k : SignalKey) (b : SlotBinding) :
    wfRegistry m → wfRegistry (insertBindingList m k b) := by
  induction m with
  | nil =>
      intro _
      refine ⟨by simp [insertBindingList], ?_⟩
      intro p hp
      have hp1 : p = (k, [b]) := List.mem_singleton.mp hp
      rw [hp1]
      simp
  | cons q rest ih =>
      intro h
      obtain ⟨k', l⟩ := q
      obtain ⟨hnd, hne⟩ := h
      rw [List.map_cons, List.nodup_cons] at hnd
      have hwrest : wfRegistry rest :=
        ⟨hnd.2, fun p hp => hne p (List.mem_cons_of_mem _ hp)⟩
      rw [insertBindingList_cons]
      by_cases hc : compareByPointerSig k' k
      · rw [if_pos hc]
        refine ⟨?_, ?_⟩
        · rw [List.map_cons, List.nodup_cons]
          exact ⟨hnd.1, hnd.2⟩
        · intro p hp
          rcases List.mem_cons.mp hp with rfl | hp
          · simp
          · exact hne p (List.mem_cons_of_mem _ hp)
      · rw [if_neg hc]
        have hwf' := ih hwrest
        refine ⟨?_, ?_⟩
        · rw [List.map_cons, List.nodup_cons]
          refine ⟨?_, hwf'.1⟩
          intro hmem
          rcases keys_insertBindingList_subset rest k b k' hmem with h1 | rfl
          · exact hnd.1 h1
          · exact hc ((compareByPointerSig_iff k' k').mpr rfl)
        · intro p hp
          rcases List.mem_cons.mp hp with rfl | hp
          · exact hne _ (List.mem_cons_self _ _)
          · exact hwf'.2 p hp

theorem removeFromEntry_keys_sublist (m : Registry) (k : SignalKey)
    (pred : SlotBinding → Bool) :
    ((removeFromEntry m k pred).map Prod.fst).Sublist (m.map Prod.fst) := by
  induction m with
  | nil => simp [removeFromEntry]
  | cons q rest ih =>
      obtain ⟨k', l⟩ := q
      rw [removeFromEntry_cons]
      by_cases hc : compareByPointerSig k' k
      · rw [if_pos hc]
        by_cases hemp : (l.filter (fun x => !(pred x))).isEmpty
        · rw [if_pos hemp]
          rw [List.map_cons]
          exact List.Sublist.cons _ (List.Sublist.refl _)
        · rw [if_neg hemp]
          rw [List.map_cons, List.map_cons]
      · rw [if_neg hc]
        rw [List.map_cons, List.map_cons]
        exact List.Sublist.cons₂ _ ih

theorem wf_removeFromEntry (m : Registry) (k : SignalKey) (pred : SlotBinding → Bool) :
    wfRegistry m → wfRegistry (removeFromEntry m k pred) := by
  induction m with
  | nil =>
      intro _
      exact ⟨by simp [removeFromEntry], by simp [removeFromEntry]⟩
  | cons q rest ih =>
      intro h
      obtain ⟨k', l⟩ := q
      obtain ⟨hnd, hne⟩ := h
      rw [List.map_cons, List.nodup_cons] at hnd
      have hwrest : wfRegistry rest :=
        ⟨hnd.2, fun p hp => hne p (List.mem_cons_of_mem _ hp)⟩
      have hwf' := ih hwrest
      rw [removeFromEntry_cons]
      by_cases hc : compareByPointerSig k' k
      · rw [if_pos hc]
        by_cases hemp : (l.filter (fun x => !(pred x))).isEmpty
        · rw [if_pos hemp]
          exact hwrest
        · rw [if_neg hemp]
          refine ⟨?_, ?_⟩
          · rw [List.map_cons, List.nodup_cons]
            exact ⟨hnd.1, hnd.2⟩
          · intro p hp
            rcases List.mem_cons.mp hp with rfl | hp
            · intro hcontra
              apply hemp
              have hfe : (l.filter (fun x => !(pred x))) = [] := hcontra
              rw [hfe]
              rfl
            · exact hne p (List.mem_cons_of_mem _ hp)
      · rw [if_neg hc]
        refine ⟨?_, ?_⟩
        · rw [List.map_cons, List.nodup_cons]
          refine ⟨?_, hwf'.1⟩
          intro hmem
          exact hnd.1 ((removeFromEntry_keys_sublist rest k pred).mem hmem)
        · intro p hp
          rcases List.mem_cons.mp hp with rfl | hp
          · exact hne _ (List.mem_cons_self _ _)
          · exact hwf'.2 p hp

theorem removeEntry_keys_sublist (m : Registry) (k : SignalKey) :
    ((removeEntry m k).map Prod.fst).Sublist (m.map Prod.fst) := by
  induction m with
  | nil => simp [removeEntry]
  | cons q rest ih =>
      obtain ⟨k', l⟩ := q
      rw [removeEntry_cons]
      by_cases hc : compareByPointerSig k' k
      · rw [if_pos hc]
        rw [List.map_cons]
        exact List.Sublist.cons _ (List.Sublist.refl _)
      · rw [if_neg hc]
        rw [List.map_cons, List.map_cons]
        exact List.Sublist.cons₂ _ ih

theorem wf_removeEntry (m : Registry) (k : SignalKey) :
    wfRegistry m → wfRegistry (removeEntry m k) := by
  induction m with
  | nil =>
      intro _
      exact ⟨by simp [removeEntry], by simp [removeEntry]⟩
  | cons q rest ih =>
      intro h
      obtain ⟨k', l⟩ := q
      obtain ⟨hnd, hne⟩ := h
      rw [List.map_cons, List.nodup_cons] at hnd
      have hwrest : wfRegistry rest :=
        ⟨hnd.2, fun p hp => hne p (List.mem_cons_of_mem _ hp)⟩
      have hwf' := ih hwrest
      rw [removeEntry_cons]
      by_cases hc : compareByPointerSig k' k
      · rw [if_pos hc]
        exact hwrest
      · rw [if_neg hc]
        refine ⟨?_, ?_⟩
        · rw [List.map_cons, List.nodup_cons]
          refine ⟨?_, hwf'.1⟩
          intro hmem
          exact hnd.1 ((removeEntry_keys_sublist rest k).mem hmem)
        · intro p hp
          rcases List.mem_cons.mp hp with rfl | hp
          · exact hne _ (List.mem_cons_self _ _)
          · exact hwf'.2 p hp

theorem setParamsInEntry_cons (k' : SignalKey) (l : List SlotBinding) (rest : Registry)
    (k : SignalKey) (args : List SVal) :
    setParamsInEntry ((k', l) :: rest) k args =
      if compareByPointerSig k' k then
        (k', l.map (fun b => { b with inputParams := args })) :: rest
      else (k', l) :: setParamsInEntry rest k args := rfl

theorem keys_setParamsInEntry (m : Registry) (k : SignalKey) (args : List SVal) :
    (setParamsInEntry m k args).map Prod.fst = m.map Prod.fst := by
  induction m with
  | nil => rfl
  | cons q rest ih =>
      obtain ⟨k', l⟩ := q
      rw [setParamsInEntry_cons]
      by_cases hc : compareByPointerSig k' k
      · rw [if_pos hc]
        rfl
      · rw [if_neg hc]
        rw [List.map_cons, List.map_cons, ih]

theorem wf_setParamsInEntry (m : Registry) (k : SignalKey) (args : List SVal) :
    wfRegistry m → wfRegistry (setParamsInEntry m k args) := by
  induction m with
  | nil => intro _; exact ⟨by simp [setParamsInEntry], by simp [setParamsInEntry]⟩
  | cons q rest ih =>
      intro h
      obtain ⟨k', l⟩ := q
      obtain ⟨hnd, hne⟩ := h
      rw [List.map_cons, List.nodup_cons] at hnd
      have hwrest : wfRegistry rest :=
        ⟨hnd.2, fun p hp => hne p (List.mem_cons_of_mem _ hp)⟩
      have hwf' := ih hwrest
      rw [setParamsInEntry_cons]
      by_cases hc : compareByPointerSig k' k
      · rw [if_pos hc]
        refine ⟨?_, ?_⟩
        · rw [List.map_cons, List.nodup_cons]
          exact ⟨hnd.1, hnd.2⟩
        · intro p hp
          rcases List.mem_cons.mp hp with rfl | hp
          · have hl : l ≠ [] := hne _ (List.mem_cons_self _ _)
            simpa using hl
          · exact hne p (List.mem_cons_of_mem _ hp)
      · rw [if_neg hc]
        refine ⟨?_, ?_⟩
        · rw [List.map_cons, List.nodup_cons]
          refine ⟨?_, hwf'.1⟩
          rw [keys_setParamsInEntry]
          exact hnd.1
        · intro p hp
          rcases List.mem_cons.mp hp with rfl | hp
          · exact hne _ (List.mem_cons_self _ _)
          · exact hwf'.2 p hp

theorem removeReceiverEverywhere_cons (k : SignalKey) (l : List SlotBinding)
    (rest : Registry) (x : ObjId) :
    removeReceiverEverywhere ((k, l) :: rest) x =
      if (l.filter (fun b => !(compareByReceiver b x))).isEmpty
      then removeReceiverEverywhere rest x
      else (k, l.filter (fun b => !(compareByReceiver b x))) :: removeReceiverEverywhere rest x := rfl

theorem removeReceiverEverywhere_keys_sublist (m : Registry) (x : ObjId) :
    ((removeReceiverEverywhere m x).map Prod.fst).Sublist (m.map Prod.fst) := by
  induction m with
  | nil => simp [removeReceiverEverywhere]
  | cons q rest ih =>
      obtain ⟨k, l⟩ := q
      rw [removeReceiverEverywhere_cons]
      by_cases hemp : (l.filter (fun b => !(compareByReceiver b x))).isEmpty
      · rw [if_pos hemp]
        rw [List.map_cons]
        exact List.Sublist.cons _ ih
      · rw [if_neg hemp]
        rw [List.map_cons, List.map_cons]
        exact List.Sublist.cons₂ _ ih

theorem wf_removeReceiverEverywhere (m : Registry) (x : ObjId) :
    wfRegistry m → wfRegistry (removeReceiverEverywhere m x) := by
  induction m with
  | nil => intro _; exact ⟨by simp [removeReceiverEverywhere], by simp [removeReceiverEverywhere]⟩
  | cons q rest ih =>
      intro h
      obtain ⟨k, l⟩ := q
      obtain ⟨hnd, hne⟩ := h
      rw [List.map_cons, List.nodup_cons] at hnd
      have hwrest : wfRegistry rest :=
        ⟨hnd.2, fun p hp => hne p (List.mem_cons_of_mem _ hp)⟩
      have hwf' := ih hwrest
      rw [removeReceiverEverywhere_cons]
      by_cases hemp : (l.filter (fun b => !(compareByReceiver b x))).isEmpty
      · rw [if_pos hemp]
        exact hwf'
      · rw [if_neg hemp]
        refine ⟨?_, ?_⟩
        · rw [List.map_cons, List.nodup_cons]
          refine ⟨?_, hwf'.1⟩
          intro hmem
          exact hnd.1 ((removeReceiverEverywhere_keys_sublist rest x).mem hmem)
        · intro p hp
          rcases List.mem_cons.mp hp with rfl | hp
          · intro hcontra
            apply hemp
            have hfe : (l.filter (fun b => !(compareByReceiver b x))) = [] := hcontra
            rw [hfe]
            rfl
          · exact hwf'.2 p hp

theorem wfRegistry_nil : wfRegistry [] := ⟨by simp, by simp⟩

theorem wfWorld_emptyWorld : wfWorld emptyWorld := by
  intro i
  exact ⟨by simp [emptyWorld, emptySObj], by simp [emptyWorld, emptySObj]⟩

theorem wfWorld_applyOp (w : World) (op : Op) (h : wfWorld w) : wfWorld (applyOp w op) := by
  cases op with
  | connectOp e s r sl =>
      intro i
      show wfRegistry ((connect w e s r sl i).signalToSlotMap)
      rw [connect_map]
      by_cases hi : i = e
      · rw [if_pos hi]
        exact wf_insertBindingList _ _ _ (h e)
      · rw [if_neg hi]
        exact h i
  | disconnect4Op e s r sl =>
      intro i
      show wfRegistry ((disconnect4 w e s r sl i).signalToSlotMap)
      rw [disconnect4_map]
      by_cases hc : signalIsPresent (w e) ⟨e, s⟩ = true ∧ i = e
      · rw [if_pos hc]
        exact wf_removeFromEntry _ _ _ (h e)
      · rw [if_neg hc]
        exact h i
  | disconnect3Op e s r =>
      intro i
      show wfRegistry ((disconnect3 w e s r i).signalToSlotMap)
      rw [disconnect3_map]
      by_cases hc : signalIsPresent (w e) ⟨e, s⟩ = true ∧ i = e
      · rw [if_pos hc]
        exact wf_removeFromEntry _ _ _ (h e)
      · rw [if_neg hc]
        exact h i
  | disconnect2Op e s =>
      intro i
      show wfRegistry ((disconnect2 w e s i).signalToSlotMap)
      rw [disconnect2_map]
      by_cases hc : signalIsPresent (w e) ⟨e, s⟩ = true ∧ i = e
      · rw [if_pos hc]
        exact wf_removeEntry _ _ (h e)
      · rw [if_neg hc]
        exact h i
  | disconnect1Op e =>
      intro i
      show wfRegistry ((disconnect1 w e i).signalToSlotMap)
      rw [disconnect1_map]
      by_cases hi : i = e
      · rw [if_pos hi]
        exact wfRegistry_nil
      · rw [if_neg hi]
        exact h i
  | emitOp e s args =>
      intro i
      show wfRegistry (((emitSignal w e s args).1 i).signalToSlotMap)
      rw [emitSignal_fst_map]
      by_cases hc : ((w e).signalToSlotMap.find?
          (fun p => compareByPointerSig p.1 ⟨e, s⟩)).isSome = true ∧ i = e
      · rw [if_pos hc]
        exact wf_setParamsInEntry _ _ _ (h e)
      · rw [if_neg hc]
        exact h i
  | destroyOp x =>
      intro i
      show wfRegistry ((destructor w x i).signalToSlotMap)
      rw [destructor_map]
      by_cases hi : i = x
      · rw [if_pos hi]
        by_cases hmem : i ∈ ((disconnect1 w x) x).slotToSignalObjectList
        · rw [if_pos hmem]
          exact wf_removeReceiverEverywhere _ _ wfRegistry_nil
        · rw [if_neg hmem]
          exact wfRegistry_nil
      · rw [if_neg hi]
        by_cases hmem : i ∈ ((disconnect1 w x) x).slotToSignalObjectList
        · rw [if_pos hmem]
          exact wf_removeReceiverEverywhere _ _ (h i)
        · rw [if_neg hmem]
          exact h i

/-! ### Scenario support lemmas -/

theorem stateEq (s1 s2 : SObjState) (h1 : s1.signalToSlotMap = s2.signalToSlotMap)
    (h2 : s1.slotToSignalObjectList = s2.slotToSignalObjectList) : s1 = s2 := by
  cases s1; cases s2
  cases h1; cases h2
  rfl

theorem entrySlots_single (k : SignalKey) (l : List SlotBinding) :
    entrySlots [(k, l)] k = l := by
  have hkk : compareByPointerSig k k = true := (compareByPointerSig_iff k k).mpr rfl
  simp [entrySlots, List.find?, hkk]

theorem connectAll_cons (a : ObjId) (s : SigId) (p : ObjId × SlotId)
    (ps : List (ObjId × SlotId)) (w : World) :
    connectAll a s (p :: ps) w = connectAll a s ps (connect w a s p.1 p.2) := rfl

theorem connectAll_map_acc (a : ObjId) (s : SigId) (ps : List (ObjId × SlotId)) :
    ∀ (w : World) (bs : List SlotBinding),
      (w a).signalToSlotMap = [(⟨a, s⟩, bs)] →
      ((connectAll a s ps w) a).signalToSlotMap
        = [(⟨a, s⟩, bs ++ ps.map (fun p => ⟨p.1, p.2, []⟩))] := by
  induction ps with
  | nil =>
      intro w bs h
      simpa using h
  | cons p ps ih =>
      intro w bs h
      rw [connectAll_cons]
      have hmap : ((connect w a s p.1 p.2) a).signalToSlotMap
          = [(⟨a, s⟩, bs ++ [⟨p.1, p.2, []⟩])] := by
        rw [connect_map, if_pos rfl, h, insertBindingList_cons,
            if_pos ((compareByPointerSig_iff _ _).mpr rfl)]
      have hstep := ih _ _ hmap
      rw [hstep, List.append_assoc]
      rfl

theorem connectAll_map_empty (a : ObjId) (s : SigId) (p : ObjId × SlotId)
    (ps : List (ObjId × SlotId)) :
    ((connectAll a s (p :: ps) emptyWorld) a).signalToSlotMap
      = [(⟨a, s⟩, (p :: ps).map (fun q => ⟨q.1, q.2, []⟩))] := by
  rw [connectAll_cons]
  have hmap : ((connect emptyWorld a s p.1 p.2) a).signalToSlotMap
      = [(⟨a, s⟩, [⟨p.1, p.2, []⟩])] := by
    rw [connect_map, if_pos rfl]
    rfl
  have hstep := connectAll_map_acc a s ps _ _ hmap
  rw [hstep]
  rfl

theorem emit_connectAll_trace (a : ObjId) (s : SigId) (pairs : List (ObjId × SlotId))
    (args : List SVal) :
    (emitSignal (connectAll a s pairs emptyWorld) a s args).2
      = pairs.map (fun p => (p.1, p.2, args)) := by
  cases pairs with
  | nil =>
      rw [emitSignal_trace]
      rfl
  | cons p ps =>
      rw [emitSignal_trace, connectAll_map_empty a s p ps, entrySlots_single, List.map_map]
      rfl

theorem registryShape_setParamsInEntry (m : Registry) (k : SignalKey) (args : List SVal) :
    registryShape (setParamsInEntry m k args) = registryShape m := by
  induction m with
  | nil => rfl
  | cons q rest ih =>
      obtain ⟨k', l⟩ := q
      rw [setParamsInEntry_cons]
      by_cases hc : compareByPointerSig k' k
      · rw [if_pos hc]
        simp [registryShape, List.map_map]
      · rw [if_neg hc]
        simp only [registryShape, List.map_cons] at ih ⊢
        rw [ih]

theorem entriesForKey_insertBindingList (m : Registry) (probe k : SignalKey)
    (b : SlotBinding) (hk : k ≠ probe) :
    entriesForKey (insertBindingList m probe b) k = entriesForKey m k := by
  induction m with
  | nil =>
      have hpk : ((probe == k) : Bool) = false := by
        simp
        exact fun hcontra => hk hcontra.symm
      simp [insertBindingList, entriesForKey, hpk]
  | cons q rest ih =>
      obtain ⟨k', l⟩ := q
      rw [insertBindingList_cons]
      by_cases hc : compareByPointerSig k' probe
      · have hpk : ((k' == k) : Bool) = false := by
          simp
          intro hcontra
          exact hk (hcontra ▸ (compareByPointerSig_iff _ _).mp hc)
        rw [if_pos hc]
        simp [entriesForKey, List.filter_cons, hpk]
      · rw [if_neg hc]
        simp only [entriesForKey, List.filter_cons]
        simp only [entriesForKey] at ih
        rw [ih]

theorem entriesForKey_removeFromEntry (m : Registry) (probe k : SignalKey)
    (pred : SlotBinding → Bool) (hk : k ≠ probe) :
    entriesForKey (removeFromEntry m probe pred) k = entriesForKey m k := by
  induction m with
  | nil => rfl
  | cons q rest ih =>
      obtain ⟨k', l⟩ := q
      rw [removeFromEntry_cons]
      by_cases hc : compareByPointerSig k' probe
      · have hpk : ((k' == k) : Bool) = false := by
          simp
          intro hcontra
          exact hk (hcontra ▸ (compareByPointerSig_iff _ _).mp hc)
        rw [if_pos hc]
        by_cases hemp : (l.filter (fun x => !(pred x))).isEmpty
        · rw [if_pos hemp]
          simp [entriesForKey, List.filter_cons, hpk]
        · rw [if_neg hemp]
          simp [entriesForKey, List.filter_cons, hpk]
      · rw [if_neg hc]
        simp only [entriesForKey, List.filter_cons]
        simp only [entriesForKey] at ih
        rw [ih]

theorem entriesForKey_removeEntry (m : Registry) (probe k : SignalKey) (hk : k ≠ probe) :
    entriesForKey (removeEntry m probe) k = entriesForKey m k := by
  induction m with
  | nil => rfl
  | cons q rest ih =>
      obtain ⟨k', l⟩ := q
      rw [removeEntry_cons]
      by_cases hc : compareByPointerSig k' probe
      · have hpk : ((k' == k) : Bool) = false := by
          simp
          intro hcontra
          exact hk (hcontra ▸ (compareByPointerSig_iff _ _).mp hc)
        rw [if_pos hc]
        simp [entriesForKey, List.filter_cons, hpk]
      · rw [if_neg hc]
        simp only [entriesForKey, List.filter_cons]
        simp only [entriesForKey] at ih
        rw [ih]

theorem entriesForKey_setParamsInEntry (m : Registry) (probe k : SignalKey)
    (args : List SVal) (hk : k ≠ probe) :
    entriesForKey (setParamsInEntry m probe args) k = entriesForKey m k := by
  induction m with
  | nil => rfl
  | cons q rest ih =>
      obtain ⟨k', l⟩ := q
      rw [setParamsInEntry_cons]
      by_cases hc : compareByPointerSig k' probe
      · have hpk : ((k' == k) : Bool) = false := by
          simp
          intro hcontra
          exact hk (hcontra ▸ (compareByPointerSig_iff _ _).mp hc)
        rw [if_pos hc]
        simp [entriesForKey, List.filter_cons, hpk]
      · rw [if_neg hc]
        simp only [entriesForKey, List.filter_cons]
        simp only [entriesForKey] at ih
        rw [ih]

theorem setObj_eta (w : World) (i : ObjId) : setObj w i (w i) = w := by
  funext j
  rw [setObj_apply]
  by_cases hj : j = i
  · rw [if_pos hj, hj]
  · rw [if_neg hj]

theorem removeFromEntry_no_match (m : Registry) (k : SignalKey) (pred : SlotBinding → Bool)
    (h : ∀ p ∈ m, ∀ b ∈ p.2, pred b = false)
    (hne : ∀ p ∈ m, p.2 ≠ []) :
    removeFromEntry m k pred = m := by
  induction m with
  | nil => rfl
  | cons q rest ih =>
      obtain ⟨k', l⟩ := q
      rw [removeFromEntry_cons]
      have hfil : l.filter (fun x => !(pred x)) = l := by
        apply List.filter_eq_self.mpr
        intro b hb
        simp [h (k', l) (List.mem_cons_self _ _) b hb]
      by_cases hc : compareByPointerSig k' k
      · rw [if_pos hc, hfil]
        have hlne : l ≠ [] := hne (k', l) (List.mem_cons_self _ _)
        rw [if_neg (by rw [List.isEmpty_iff]; exact hlne)]
      · rw [if_neg hc,
            ih (fun p hp => h p (List.mem_cons_of_mem _ hp))
              (fun p hp => hne p (List.mem_cons_of_mem _ hp))]

theorem disconnectCore_no_change (w : World) (e r : ObjId)
    (hback : e ∉ (w r).slotToSignalObjectList) :
    disconnectCore w e (w e).signalToSlotMap r = w := by
  have heta1 : ({ w e with signalToSlotMap := (w e).signalToSlotMap } : SObjState) = w e := rfl
  simp only [disconnectCore, heta1, setObj_eta]
  by_cases hc : connectedWithObject (w e) r
  · rw [if_pos hc]
  · rw [if_neg hc]
    have hfil : (w r).slotToSignalObjectList.filter (fun x => x != e)
        = (w r).slotToSignalObjectList := by
      apply List.filter_eq_self.mpr
      intro x hx
      have hxe : x ≠ e := fun hcontra => hback (hcontra ▸ hx)
      simpa using hxe
    rw [hfil]
    have heta2 : ({ w r with slotToSignalObjectList := (w r).slotToSignalObjectList }
        : SObjState) = w r := rfl
    rw [heta2]
    exact setObj_eta w r

/-! ### The claims -/

/-- Claim C1: for every emitter `a` connected to receiver `b` on signal `s`,
destroying `b` and then emitting `s` on `a` produces zero slot invocations,
and after `b`'s destruction `a`'s registry contains no signal entry or slot
binding that references `b`. -/
theorem claim_C1_receiver_teardown (a b : ObjId) (s : SigId) (sl : SlotId)
    (args : List SVal) (h : a ≠ b) :
    (emitSignal (destructor (connect emptyWorld a s b sl) b) a s args).2 = [] ∧
    referencesObj ((destructor (connect emptyWorld a s b sl) b) a) b = false := by
  have hb' : b ≠ a := Ne.symm h
  have hw0a : ((connect emptyWorld a s b sl) a).signalToSlotMap
      = [(⟨a, s⟩, [⟨b, sl, []⟩])] := by
    rw [connect_map, if_pos rfl]
    rfl
  have hw0b_map : ((connect emptyWorld a s b sl) b).signalToSlotMap = [] := by
    rw [connect_map, if_neg hb']
    rfl
  have hw0b_back : ((connect emptyWorld a s b sl) b).slotToSignalObjectList = [a] := by
    rw [connect_back, if_pos rfl]
    rfl
  have hrs : getAllReceivers ((connect emptyWorld a s b sl) b) none = [] := by
    rw [getAllReceivers, hw0b_map]
    rfl
  have hd1_back_b : ((disconnect1 (connect emptyWorld a s b sl) b) b).slotToSignalObjectList
      = [a] := by
    rw [disconnect1_back, hrs]
    simpa using hw0b_back
  have hda : ((destructor (connect emptyWorld a s b sl) b) a).signalToSlotMap = [] := by
    rw [destructor_map, if_neg h, hd1_back_b,
        if_pos (List.mem_singleton.mpr rfl), hw0a, removeReceiverEverywhere_cons]
    have hcb : compareByReceiver ⟨b, sl, []⟩ b = true := (compareByReceiver_iff _ _).mpr rfl
    rw [if_pos (by simp [hcb])]
    rfl
  constructor
  · rw [emitSignal_trace, hda]
    rfl
  · simp only [referencesObj]
    rw [hda]
    rfl

/-- Witness for claim C1 at `a = 0`, `b = 1`. -/
theorem claim_C1_receiver_teardown_witness :
    (emitSignal (destructor (connect emptyWorld 0 0 1 0) 1) 0 0 []).2 = [] ∧
    referencesObj ((destructor (connect emptyWorld 0 0 1 0) 1) 0) 1 = false :=
  claim_C1_receiver_teardown 0 1 0 0 [] (by decide)

/-- Claim C2: after any sequence of connect and disconnect operations starting
from fresh objects, the bidirectional state is cross-consistent: every slot
binding in any emitter's registry has a receiver whose back-reference list
contains that emitter, and every emitter in a receiver's back-reference list
has at least one binding to that receiver somewhere in its registry. -/
theorem claim_C2_cross_consistency (ops : List Op)
    (hops : ∀ op ∈ ops, op.isConnectOrDisconnect = true) :
    crossConsistent (applyOps ops emptyWorld) := by
  have hgen : ∀ (l : List Op), (∀ op ∈ l, op.isConnectOrDisconnect = true) →
      ∀ w, crossConsistent w → crossConsistent (applyOps l w) := by
    intro l
    induction l with
    | nil =>
        intro _ w hw
        exact hw
    | cons op l ih =>
        intro hl w hw
        exact ih (fun o ho => hl o (List.mem_cons_of_mem _ ho)) _
          (crossConsistent_applyOp w op (hl op (List.mem_cons_self _ _)) hw)
  exact hgen ops hops emptyWorld crossConsistent_emptyWorld

/-- Witness for claim C2 on a one-connect history. -/
theorem claim_C2_cross_consistency_witness :
    crossConsistent (applyOps [Op.connectOp 0 0 1 0] emptyWorld) :=
  claim_C2_cross_consistency [Op.connectOp 0 0 1 0]
    (fun op hop => by
      rw [List.mem_singleton.mp hop]
      rfl)

/-- Counterexample to claim C3 as stated: connect the same
(signal 0, receiver 1, slot 0) triple twice on emitter 0, disconnect once with
the four-argument overload, and emit: the slot fires zero times, not exactly
once, because `remove_if` removes every binding matching (receiver, slot),
both duplicates included. -/
theorem claim_C3_duplicate_disconnect_counterexample :
    ¬ ((emitSignal (disconnect4 (connect (connect emptyWorld 0 0 1 0) 0 0 1 0) 0 0 1 0)
        0 0 []).2.length = 1) := by
  decide

/-- Claim C3 amended: connecting the identical (signal, receiver, slot) triple
twice creates two independent bindings so that one emit invokes that slot
exactly twice; calling the four-argument disconnect once then removes BOTH
duplicate bindings (`remove_if` removes every match), so a subsequent emit
invokes the slot zero times. -/
theorem claim_C3_duplicate_binding_amended (a : ObjId) (s : SigId) (r : ObjId)
    (sl : SlotId) (args : List SVal) :
    (emitSignal (connect (connect emptyWorld a s r sl) a s r sl) a s args).2
      = [(r, sl, args), (r, sl, args)] ∧
    (emitSignal (disconnect4 (connect (connect emptyWorld a s r sl) a s r sl) a s r sl)
        a s args).2 = [] := by
  have h1 : ((connect emptyWorld a s r sl) a).signalToSlotMap
      = [(⟨a, s⟩, [⟨r, sl, []⟩])] := by
    rw [connect_map, if_pos rfl]
    rfl
  have h2 : ((connect (connect emptyWorld a s r sl) a s r sl) a).signalToSlotMap
      = [(⟨a, s⟩, [⟨r, sl, []⟩, ⟨r, sl, []⟩])] := by
    rw [connect_map, if_pos rfl, h1, insertBindingList_cons,
        if_pos ((compareByPointerSig_iff _ _).mpr rfl)]
    rfl
  constructor
  · rw [emitSignal_trace, h2, entrySlots_single]
    rfl
  · have hsp : signalIsPresent ((connect (connect emptyWorld a s r sl) a s r sl) a)
        ⟨a, s⟩ = true := by
      rw [signalIsPresent, h2]
      simp [signalPresentIn]
    have hslot : compareByPointerSlot ⟨r, sl, []⟩ ⟨r, sl, []⟩ = true :=
      (compareByPointerSlot_iff _ _).mpr ⟨rfl, rfl⟩
    have hrm : removeFromEntry [(⟨a, s⟩, [⟨r, sl, []⟩, ⟨r, sl, []⟩])] ⟨a, s⟩
        (fun b => compareByPointerSlot b ⟨r, sl, []⟩) = [] := by
      rw [removeFromEntry_cons, if_pos ((compareByPointerSig_iff _ _).mpr rfl)]
      rw [if_pos (by simp [hslot])]
    have hd4map : ((disconnect4 (connect (connect emptyWorld a s r sl) a s r sl) a s r sl)
        a).signalToSlotMap = [] := by
      rw [disconnect4_map, if_pos ⟨hsp, rfl⟩, h2, hrm]
    rw [emitSignal_trace, hd4map]
    rfl

/-- Claim C4: connecting any list of (receiver, slot) pairs with pairwise
distinct receivers to one signal of one emitter and emitting once produces
exactly the invocation list of those pairs in connection order, and each
receiver's slot is invoked exactly once. -/
theorem claim_C4_fanout_order (a : ObjId) (s : SigId) (pairs : List (ObjId × SlotId))
    (args : List SVal) (hnd : (pairs.map Prod.fst).Nodup) :
    (emitSignal (connectAll a s pairs emptyWorld) a s args).2
      = pairs.map (fun p => (p.1, p.2, args)) ∧
    ∀ p ∈ pairs,
      ((emitSignal (connectAll a s pairs emptyWorld) a s args).2.countP
          (fun t => t.1 == p.1)) = 1 := by
  refine ⟨emit_connectAll_trace a s pairs args, ?_⟩
  intro p hp
  rw [emit_connectAll_trace, List.countP_map]
  have hcomp : ((fun t : Invocation => t.1 == p.1) ∘
      (fun q : ObjId × SlotId => ((q.1, q.2, args) : Invocation))) = fun q => q.1 == p.1 := rfl
  rw [hcomp]
  have hcount : pairs.countP (fun q => q.1 == p.1) = (pairs.map Prod.fst).count p.1 := by
    rw [List.count, List.countP_map]
    rfl
  rw [hcount]
  exact List.count_eq_one_of_mem hnd (List.mem_map.mpr ⟨p, hp, rfl⟩)

/-- Witness for claim C4: two distinct receivers, invoked once each in
connection order. -/
theorem claim_C4_fanout_order_witness :
    (emitSignal (connectAll 0 0 [(1, 0), (2, 0)] emptyWorld) 0 0 []).2
      = [(1, 0, []), (2, 0, [])] := by
  have h := claim_C4_fanout_order 0 0 [(1, 0), (2, 0)] [] (by decide)
  exact h.1

/-- Claim C5: for every emitter `a` connected to receiver `b`, destroying `a`
removes `a` from `b`'s back-reference list, leaving it empty. -/
theorem claim_C5_emitter_teardown (a b : ObjId) (s : SigId) (sl : SlotId) :
    ((destructor (connect emptyWorld a s b sl) a) b).slotToSignalObjectList = [] := by
  by_cases hab : b = a
  · rw [destructor_back, if_pos hab]
  · rw [destructor_back, if_neg hab]
    have hw0a : ((connect emptyWorld a s b sl) a).signalToSlotMap
        = [(⟨a, s⟩, [⟨b, sl, []⟩])] := by
      rw [connect_map, if_pos rfl]
      rfl
    have hw0b_back : ((connect emptyWorld a s b sl) b).slotToSignalObjectList = [a] := by
      rw [connect_back, if_pos rfl]
      rfl
    have hbrs : b ∈ getAllReceivers ((connect emptyWorld a s b sl) a) none := by
      rw [mem_getAllReceivers, hw0a]
      exact ⟨(⟨a, s⟩, [⟨b, sl, []⟩]), List.mem_singleton.mpr rfl, rfl,
        ⟨b, sl, []⟩, List.mem_singleton.mpr rfl, rfl⟩
    rw [disconnect1_back, if_pos hbrs, hw0b_back]
    simp

/-- Claim C6: after every sequence of connect, disconnect, emit and
destruction operations starting from fresh objects, each signal identity
appears as a registry key at most once per emitter (value equality), and no
entry with an empty slot-binding list exists. -/
theorem claim_C6_key_uniqueness (ops : List Op) : wfWorld (applyOps ops emptyWorld) := by
  have hgen : ∀ (l : List Op) (w : World), wfWorld w → wfWorld (applyOps l w) := by
    intro l
    induction l with
    | nil =>
        intro w hw
        exact hw
    | cons op l ih =>
        intro w hw
        exact ih _ (wfWorld_applyOp w op hw)
  exact hgen ops emptyWorld wfWorld_emptyWorld

/-- Claim C7: every disconnect variant applied to a combination for which no
connection was ever made returns leaving the whole world (registries and
back-reference lists) exactly as it was: the three signal-naming variants when
the signal is not registered, the one-argument variant when the emitter's
registry is empty, and the four- and three-argument variants also when the
signal is registered but no binding matches the named receiver (and slot) and
the emitter is not in the receiver's back-reference list. -/
theorem claim_C7_disconnect_noop (w : World) (e : ObjId) (s : SigId) (r : ObjId)
    (sl : SlotId) :
    (signalIsPresent (w e) ⟨e, s⟩ = false →
      disconnect4 w e s r sl = w ∧ disconnect3 w e s r = w ∧ disconnect2 w e s = w) ∧
    ((w e).signalToSlotMap = [] → disconnect1 w e = w) ∧
    ((∀ p ∈ (w e).signalToSlotMap, ∀ b ∈ p.2, ¬(b.receiver = r ∧ b.slot = sl)) →
      (∀ p ∈ (w e).signalToSlotMap, p.2 ≠ []) →
      e ∉ (w r).slotToSignalObjectList →
      disconnect4 w e s r sl = w) ∧
    ((∀ p ∈ (w e).signalToSlotMap, ∀ b ∈ p.2, b.receiver ≠ r) →
      (∀ p ∈ (w e).signalToSlotMap, p.2 ≠ []) →
      e ∉ (w r).slotToSignalObjectList →
      disconnect3 w e s r = w) := by
  refine ⟨?_, ?_, ?_, ?_⟩
  · intro h
    have h' : ¬ signalIsPresent (w e) ⟨e, s⟩ = true := by
      rw [h]
      simp
    refine ⟨?_, ?_, ?_⟩
    · rw [disconnect4, if_neg h']
    · rw [disconnect3, if_neg h']
    · rw [disconnect2, if_neg h']
  · intro h
    have hrs : getAllReceivers (w e) none = [] := by
      rw [getAllReceivers, h]
      rfl
    funext j
    apply stateEq
    · rw [disconnect1_map]
      by_cases hj : j = e
      · rw [if_pos hj, hj, h]
      · rw [if_neg hj]
    · rw [disconnect1_back, hrs]
      simp
  · intro hmatch hne hback
    by_cases hp : signalIsPresent (w e) ⟨e, s⟩
    · rw [disconnect4, if_pos hp]
      have hm1 : removeFromEntry (w e).signalToSlotMap ⟨e, s⟩
          (fun b => compareByPointerSlot b ⟨r, sl, []⟩) = (w e).signalToSlotMap := by
        apply removeFromEntry_no_match
        · intro p hp' b hb
          cases hpb : compareByPointerSlot b ⟨r, sl, []⟩
          · rfl
          · exact absurd ((compareByPointerSlot_iff _ _).mp hpb) (hmatch p hp' b hb)
        · exact hne
      rw [hm1]
      exact disconnectCore_no_change w e r hback
    · rw [disconnect4, if_neg hp]
  · intro hmatch hne hback
    by_cases hp : signalIsPresent (w e) ⟨e, s⟩
    · rw [disconnect3, if_pos hp]
      have hm1 : removeFromEntry (w e).signalToSlotMap ⟨e, s⟩
          (fun b => compareByReceiver b r) = (w e).signalToSlotMap := by
        apply removeFromEntry_no_match
        · intro p hp' b hb
          cases hpb : compareByReceiver b r
          · rfl
          · exact absurd ((compareByReceiver_iff _ _).mp hpb) (hmatch p hp' b hb)
        · exact hne
      rw [hm1]
      exact disconnectCore_no_change w e r hback
    · rw [disconnect3, if_neg hp]

/-- Witness for claim C7 on a fresh world: all four disconnect arities. -/
theorem claim_C7_disconnect_noop_witness :
    disconnect4 emptyWorld 0 0 1 0 = emptyWorld ∧
    disconnect3 emptyWorld 0 0 1 = emptyWorld ∧
    disconnect2 emptyWorld 0 0 = emptyWorld ∧
    disconnect1 emptyWorld 0 = emptyWorld := by
  have h := claim_C7_disconnect_noop emptyWorld 0 0 1 0
  exact ⟨(h.1 rfl).1, (h.1 rfl).2.1, (h.1 rfl).2.2, h.2.1 rfl⟩

/-- Claim C8: every slot invocation produced by an emit carries exactly the
emitted argument values, whatever position the binding occupies in the slot
list.  (Arguments are modelled as pure values; the fresh `std::vector` built
from them for each slot therefore holds the original values unchanged.) -/
theorem claim_C8_argument_fidelity (w : World) (e : ObjId) (s : SigId)
    (args : List SVal) (inv : Invocation)
    (hinv : inv ∈ (emitSignal w e s args).2) : inv.2.2 = args := by
  rw [emitSignal_trace] at hinv
  rcases List.mem_map.mp hinv with ⟨b, _, rfl⟩
  rfl

/-- Witness for claim C8: the single invocation of a one-connection world
carries the emitted arguments. -/
theorem claim_C8_argument_fidelity_witness :
    ((1, 0, [SVal.int 42, SVal.str "x"]) : Invocation).2.2
      = [SVal.int 42, SVal.str "x"] :=
  claim_C8_argument_fidelity (connect emptyWorld 0 0 1 0) 0 0
    [SVal.int 42, SVal.str "x"] (1, 0, [SVal.int 42, SVal.str "x"]) (by decide)

/-- Claim C9: signal identity equality is exactly pairwise equality of emitter
and declared signal, and operations naming signal `s` of emitter `x` leave
every registry entry of any different key (different emitter or different
signal) in every object untouched. -/
theorem claim_C9_signal_identity :
    (∀ k1 k2 : SignalKey, compareByPointerSig k1 k2 = true ↔ k1 = k2) ∧
    (∀ (w : World) (x : ObjId) (s : SigId) (r : ObjId) (sl : SlotId)
        (args : List SVal) (k : SignalKey) (j : ObjId), k ≠ ⟨x, s⟩ →
      entriesForKey (((connect w x s r sl) j).signalToSlotMap) k
          = entriesForKey ((w j).signalToSlotMap) k ∧
      entriesForKey (((disconnect4 w x s r sl) j).signalToSlotMap) k
          = entriesForKey ((w j).signalToSlotMap) k ∧
      entriesForKey (((disconnect3 w x s r) j).signalToSlotMap) k
          = entriesForKey ((w j).signalToSlotMap) k ∧
      entriesForKey (((disconnect2 w x s) j).signalToSlotMap) k
          = entriesForKey ((w j).signalToSlotMap) k ∧
      entriesForKey ((((emitSignal w x s args).1) j).signalToSlotMap) k
          = entriesForKey ((w j).signalToSlotMap) k) := by
  refine ⟨compareByPointerSig_iff, ?_⟩
  intro w x s r sl args k j hk
  refine ⟨?_, ?_, ?_, ?_, ?_⟩
  · rw [connect_map]
    by_cases hj : j = x
    · rw [if_pos hj, hj]
      exact entriesForKey_insertBindingList _ _ _ _ hk
    · rw [if_neg hj]
  · rw [disconnect4_map]
    by_cases hc : signalIsPresent (w x) ⟨x, s⟩ = true ∧ j = x
    · rw [if_pos hc, hc.2]
      exact entriesForKey_removeFromEntry _ _ _ _ hk
    · rw [if_neg hc]
  · rw [disconnect3_map]
    by_cases hc : signalIsPresent (w x) ⟨x, s⟩ = true ∧ j = x
    · rw [if_pos hc, hc.2]
      exact entriesForKey_removeFromEntry _ _ _ _ hk
    · rw [if_neg hc]
  · rw [disconnect2_map]
    by_cases hc : signalIsPresent (w x) ⟨x, s⟩ = true ∧ j = x
    · rw [if_pos hc, hc.2]
      exact entriesForKey_removeEntry _ _ _ hk
    · rw [if_neg hc]
  · rw [emitSignal_fst_map]
    by_cases hc : ((w x).signalToSlotMap.find?
        (fun p => compareByPointerSig p.1 ⟨x, s⟩)).isSome = true ∧ j = x
    · rw [if_pos hc, hc.2]
      exact entriesForKey_setParamsInEntry _ _ _ _ hk
    · rw [if_neg hc]

/-- Witness for claim C9: equality of two equal identity values, and frame
preservation of an unrelated key under a four-argument disconnect. -/
theorem claim_C9_signal_identity_witness :
    (compareByPointerSig ⟨0, 0⟩ ⟨0, 0⟩ = true ↔ (⟨0, 0⟩ : SignalKey) = ⟨0, 0⟩) ∧
    entriesForKey (((disconnect4 emptyWorld 0 0 1 0) 0).signalToSlotMap) ⟨2, 3⟩
        = entriesForKey ((emptyWorld 0).signalToSlotMap) ⟨2, 3⟩ := by
  have h := claim_C9_signal_identity
  exact ⟨h.1 ⟨0, 0⟩ ⟨0, 0⟩, (h.2 emptyWorld 0 0 1 0 [] ⟨2, 3⟩ 0 (by decide)).2.1⟩

/-- Claim C10: emit leaves the whole connection state unchanged (slots being
pure in this model, i.e. no invoked slot itself connects, disconnects, emits
or destroys): after emit every object's registry holds the same signal keys
with the same (receiver, slot) bindings in the same order — only the
`m_inputParams` scratch buffers differ — and every back-reference list is
unchanged. -/
theorem claim_C10_emit_frame (w : World) (e : ObjId) (s : SigId) (args : List SVal)
    (j : ObjId) :
    registryShape (((emitSignal w e s args).1 j).signalToSlotMap)
      = registryShape ((w j).signalToSlotMap) ∧
    ((emitSignal w e s args).1 j).slotToSignalObjectList
      = (w j).slotToSignalObjectList := by
  constructor
  · rw [emitSignal_fst_map]
    by_cases hc : ((w e).signalToSlotMap.find?
        (fun p => compareByPointerSig p.1 ⟨e, s⟩)).isSome = true ∧ j = e
    · rw [if_pos hc, hc.2]
      exact registryShape_setParamsInEntry _ _ _
    · rw [if_neg hc]
  · exact emitSignal_fst_back w e s args j

end SObj
